import Mathlib

/-!
A shallow embedding of the loop-vectorization legality analysis of
`LoopVectorizationLegality.cpp` (LLVM 9).  Pure C++ functions become Lean
functions; the mutable analysis state (`Inductions`, `Reductions`,
`AllowedExit`, `MaskedOp`, the requirements tracker and the predicated
scalar-evolution state) becomes an explicit `LegState` record threaded
through each check; external collaborators (loop info, scalar evolution,
memory-dependence analysis, the target library info) are modelled as
oracle data carried by the loop/instruction records and an `Env` record,
at the granularity of the queries the source file makes of them.

Values, instructions, basic blocks and pointers are identified by `Nat`
ids.  Every function keeps the source's name and control-flow structure;
early returns of the C++ are rendered as nested matches, and the
"collect all failure reasons" (`DoExtraAnalysis`) versus "fail fast" mode
is threaded exactly as in the source.
-/

namespace LVL

/-- Scalar LLVM types, as far as the legality analysis inspects them.  A
pointer type carries the bit width of the integer type `DataLayout` would
assign to it (`getIntPtrType`). -/
inductive Ty where
  | int (bits : Nat)
  | float (bits : Nat)
  | ptr (intPtrBits : Nat)
  | void
  | other
deriving DecidableEq, Repr

def Ty.isIntegerTy : Ty → Bool
  | .int _ => true
  | _ => false

def Ty.isFloatingPointTy : Ty → Bool
  | .float _ => true
  | _ => false

def Ty.isPointerTy : Ty → Bool
  | .ptr _ => true
  | _ => false

def Ty.isVoidTy : Ty → Bool
  | .void => true
  | _ => false

def Ty.getScalarSizeInBits : Ty → Nat
  | .int b => b
  | .float b => b
  | _ => 0

/-- `convertPointerToIntegerType` of the source: pointers become their
`DataLayout` integer type, and narrow (< 32 bit) types are widened to i32
to avoid trip-count overflow. -/
def convertPointerToIntegerType : Ty → Ty
  | .ptr b => .int b
  | ty => if ty.getScalarSizeInBits < 32 then .int 32 else ty

/-- `getWiderType`: the wider of the two types after pointer conversion
(`Ty1` on ties, as in the source). -/
def getWiderType (ty0 ty1 : Ty) : Ty :=
  let t0 := convertPointerToIntegerType ty0
  let t1 := convertPointerToIntegerType ty1
  if t1.getScalarSizeInBits < t0.getScalarSizeInBits then t0 else t1

/-- The slice of `RecurrenceDescriptor` the legality analysis reads after a
successful `isReductionPHI` classification. -/
structure RecurrenceDescriptor where
  hasUnsafeAlgebra : Bool
  unsafeAlgebraInst : Nat
  loopExitInstr : Nat
deriving DecidableEq, Repr

inductive InductionKind where
  | ikIntInduction
  | ikPtrInduction
  | ikFpInduction
deriving DecidableEq, Repr

/-- The slice of `InductionDescriptor` the legality analysis reads after a
successful `isInductionPHI` classification.  `constIntStepIsOne` stands for
`getConstIntStepValue() && getConstIntStepValue()->isOne()` and
`startValueIsConstNull` for `isa<Constant>(getStartValue()) &&
cast<Constant>(getStartValue())->isNullValue()`. -/
structure InductionDescriptor where
  kind : InductionKind
  constIntStepIsOne : Bool
  startValueIsConstNull : Bool
  castInsts : List Nat
  hasUnsafeAlgebra : Bool
  unsafeAlgebraInst : Nat
deriving DecidableEq, Repr

/-- One incoming value of a phi node, with the two facts
`canIfConvertPHINodes` asks of it. -/
structure IncomingValue where
  valueId : Nat
  isConstant : Bool
  canTrap : Bool
deriving DecidableEq, Repr

/-- A phi node: its incoming values (`getNumIncomingValues` is their
count), the value it receives from the loop latch, and the oracle answers
of the four external classifiers the source tries on header phis.
`isInductionPHIAssume` is the relaxed retry `isInductionPHI(..., Assume =
true)` that first coerces the phi to an AddRec expression. -/
structure PHINodeData where
  incoming : List IncomingValue
  latchIncomingValue : Nat
  isReductionPHI : Option RecurrenceDescriptor
  isInductionPHI : Option InductionDescriptor
  isFirstOrderRecurrenceResult : Bool
  isInductionPHIAssume : Option InductionDescriptor
deriving DecidableEq, Repr

/-- The queries `canVectorizeInstrs` makes about a call instruction.
`hasNonInvariantScalarOpd` is true when some argument position flagged
`hasVectorInstrinsicScalarOpd` holds a value that is not loop invariant. -/
structure CallData where
  hasVectorIntrinsicID : Bool
  isDbgInfoIntrinsic : Bool
  hasVectorizableFunction : Bool
  isMathLibCall : Bool
  hasNonInvariantScalarOpd : Bool
deriving DecidableEq, Repr

/-- A store instruction's pointer operand and whether its stored value's
type is a valid vector element type. -/
structure StoreData where
  pointerOperand : Nat
  valueTypeIsValidElement : Bool
deriving DecidableEq, Repr

/-- An instruction, carrying exactly the facts the legality analysis
queries of it.  `phi`, `call`, `load` and `store` are `some` exactly when
the corresponding `dyn_cast` succeeds (`load` holds the load's pointer
operand). -/
structure Instruction where
  id : Nat
  ty : Ty
  phi : Option PHINodeData
  call : Option CallData
  typeIsValidElement : Bool
  isExtractElementInst : Bool
  load : Option Nat
  store : Option StoreData
  isBinaryOp : Bool
  isFast : Bool
  hasTrappingConstantOperand : Bool
  mayReadFromMemory : Bool
  mayWriteToMemory : Bool
  mayThrow : Bool
deriving DecidableEq, Repr

/-- `getLoadStorePointerOperand`: the pointer operand of a load or store,
`none` for anything else. -/
def getLoadStorePointerOperand (i : Instruction) : Option Nat :=
  match i.load with
  | some p => some p
  | none => i.store.map StoreData.pointerOperand

/-- The facts `canVectorizeOuterLoop` asks of a block's terminator when it
is a branch: `conditionIsLoopInvariant` stands for
`TheLoop->isLoopInvariant(Br->getCondition())`. -/
structure BranchData where
  isConditional : Bool
  conditionIsLoopInvariant : Bool
  successor0 : Nat
  successor1 : Nat
deriving DecidableEq, Repr

/-- A basic block.  `terminatorBranch` is `some` exactly when the
terminator `dyn_cast`s to a `BranchInst` (so `none` for a switch). -/
structure BasicBlock where
  id : Nat
  instrs : List Instruction
  terminatorBranch : Option BranchData
deriving DecidableEq, Repr

/-- `BasicBlock::phis()`: the phi nodes of a block, with their data. -/
def BasicBlock.phis (bb : BasicBlock) : List (Instruction × PHINodeData) :=
  bb.instrs.filterMap fun i => i.phi.map fun p => (i, p)

/-- The latch terminator facts `isUniformLoop` asks about:
whether the latch branch is conditional, and the operands of its condition
when that condition is a compare instruction. -/
structure LatchBranch where
  isConditional : Bool
  conditionCmpOperands : Option (Nat × Nat)
deriving DecidableEq, Repr

/-- One level of a loop nest: the `Loop` queries the analysis makes.
`canonicalInductionVariableUpdate` is `some u` when
`getCanonicalInductionVariable()` finds a canonical IV, with `u` the
value that IV receives from the latch (`getIncomingValueForBlock`). -/
structure LoopData where
  id : Nat
  headerId : Nat
  loopPreheader : Option Nat
  numBackEdges : Nat
  exitingBlock : Option Nat
  loopLatch : Option Nat
  blocks : List BasicBlock
  isAnnotatedParallel : Bool
  canonicalInductionVariableUpdate : Option Nat
  latchBranch : Option LatchBranch
deriving DecidableEq, Repr

/-- A loop nest: this loop's data and its immediate sub-loops
(`Loop::empty()` is `subLoops = []`). -/
inductive Loop where
  | mk (data : LoopData) (subLoops : List Loop)
deriving Repr

def Loop.data : Loop → LoopData
  | .mk d _ => d

def Loop.subLoops : Loop → List Loop
  | .mk _ s => s

/-- `TheLoop->getHeader()`: the block of the loop whose id is `headerId`
(an empty stand-in block if the loop data is ill-formed). -/
def LoopData.headerBlock (d : LoopData) : BasicBlock :=
  (d.blocks.find? fun bb => bb.id = d.headerId).getD
    { id := d.headerId, instrs := [], terminatorBranch := none }

/-- The result of the external memory-dependence collaborator
(`LoopAccessInfo`), as `canVectorizeMemory` reads it.  `unionPredicate`
is the collaborator's own assumption predicate, modelled — like the
analysis's `PSE` state — as the list of its atomic predicates'
complexities (the union predicate of `ScalarEvolution` is a set of atomic
predicates; it is trivially true exactly when that set is empty, and its
complexity is the sum of its members'). -/
structure LAIResult where
  canVectorizeMemoryResult : Bool
  hasDependenceInvolvingLoopInvariantAddress : Bool
  numRuntimePointerChecks : Nat
  unionPredicate : List Nat
deriving DecidableEq, Repr

/-- The external collaborators of the analysis, at the granularity of the
queries the source makes: the remark emitter's `allowExtraAnalysis`
verdict, the function's `"no-nans-fp-math"` attribute, each value's list
of users (always instructions) and the loop-membership test applied to
them, per-block `blockNeedsPredication` (delegated to
`LoopAccessInfo::blockNeedsPredication`), `LoopInfo::isLoopHeader`,
outer-loop invariance of a value, and the memory-analysis result. -/
structure Env where
  doExtraAnalysis : Bool
  funNoNaN : Bool
  instrUsers : Nat → List Nat
  loopContains : Nat → Bool
  blockNeedsPredication : Nat → Bool
  isLoopHeader : Nat → Bool
  isLoopInvariantIn : Nat → Nat → Bool
  lai : LAIResult

/-- The command-line configuration the source reads (`cl::opt` values and
the `VectorizerParams`).  Defaults are the `cl::init` values of the
source; `runtimeMemoryCheckThreshold` is
`VectorizerParams::RuntimeMemoryCheckThreshold`. -/
structure Config where
  enableIfConversion : Bool := true
  enableVPlanPredication : Bool := false
  pragmaVectorizeMemoryCheckThreshold : Nat := 128
  vectorizeSCEVCheckThreshold : Nat := 16
  pragmaVectorizeSCEVCheckThreshold : Nat := 128
  runtimeMemoryCheckThreshold : Nat := 8

/-- The mutable analysis state: the classification maps and sets owned by
`LoopVectorizationLegality`, the requirements tracker
(`unsafeAlgebraInst`, `numRuntimePointerChecks`), the
`Hints->setPotentiallyUnsafe()` flag, and the predicated scalar-evolution
union predicate `pse` (list of atomic predicate complexities; empty =
`isAlwaysTrue`).  `primaryInduction` keeps the phi id together with its
type (`PrimaryInduction->getType()`). -/
structure LegState where
  inductions : List (Nat × InductionDescriptor)
  inductionCastsToIgnore : List Nat
  reductions : List (Nat × RecurrenceDescriptor)
  firstOrderRecurrences : List Nat
  allowedExit : List Nat
  maskedOp : List Nat
  primaryInduction : Option (Nat × Ty)
  widestIndTy : Option Ty
  hasFunNoNaNAttr : Bool
  potentiallyUnsafe : Bool
  unsafeAlgebraInst : Option Nat
  numRuntimePointerChecks : Nat
  pse : List Nat
deriving DecidableEq, Repr

/-- The all-empty initial state of a fresh analysis. -/
def LegState.initial : LegState where
  inductions := []
  inductionCastsToIgnore := []
  reductions := []
  firstOrderRecurrences := []
  allowedExit := []
  maskedOp := []
  primaryInduction := none
  widestIndTy := none
  hasFunNoNaNAttr := false
  potentiallyUnsafe := false
  unsafeAlgebraInst := none
  numRuntimePointerChecks := 0
  pse := []

/-- Modelled from the spec: `LoopVectorizationRequirements::
addUnsafeAlgebraInst` is declared in the class header, which is not part
of this repository's files; per the spec ("record the first instruction
that demanded unsafe floating-point reassociation") it keeps only the
first recorded instruction. -/
def addUnsafeAlgebraInst (instId : Nat) (s : LegState) : LegState :=
  match s.unsafeAlgebraInst with
  | none => { s with unsafeAlgebraInst := some instId }
  | some _ => s

/-- One check under the source's pervasive collect-or-fail-fast idiom:
`if (!ok) { report; if (DoExtraAnalysis) Result = false; else return
false; }` followed by the rest of the function `k`, which receives the
accumulated `Result`. -/
def checkOr (dx ok result : Bool) (k : Bool → Bool) : Bool :=
  if !ok then
    if dx then k false else false
  else k result

/-- `canVectorizeLoopCFG`: the loop must have a preheader, a single
backedge, a single exiting block, and that exiting block must be the
latch. -/
def canVectorizeLoopCFG (dx : Bool) (d : LoopData) : Bool :=
  checkOr dx d.loopPreheader.isSome true fun result =>
  checkOr dx (d.numBackEdges == 1) result fun result =>
  checkOr dx d.exitingBlock.isSome result fun result =>
  checkOr dx (d.exitingBlock == d.loopLatch) result fun result =>
  result

mutual

/-- `canVectorizeLoopNestCFG`: `canVectorizeLoopCFG` on this loop, then
recursively on every nested loop, under the collect-or-fail-fast mode. -/
def canVectorizeLoopNestCFG (dx : Bool) : Loop → Bool
  | .mk d subs =>
    if !canVectorizeLoopCFG dx d then
      if dx then canVectorizeLoopNestCFGSubs dx subs false else false
    else canVectorizeLoopNestCFGSubs dx subs true

/-- The `for (Loop *SubLp : *Lp)` recursion of `canVectorizeLoopNestCFG`,
carrying the accumulated `Result`. -/
def canVectorizeLoopNestCFGSubs (dx : Bool) : List Loop → Bool → Bool
  | [], result => result
  | sl :: rest, result =>
    if !canVectorizeLoopNestCFG dx sl then
      if dx then canVectorizeLoopNestCFGSubs dx rest false
      else false
    else canVectorizeLoopNestCFGSubs dx rest result

end

/-- The canonical-shape predicate of claim C1: a loop's CFG is acceptable
when it has a preheader, exactly one backedge, a single exiting block,
and that block is the latch. -/
def cfgShapeOK (d : LoopData) : Bool :=
  d.loopPreheader.isSome && d.numBackEdges == 1 &&
    d.exitingBlock.isSome && d.exitingBlock == d.loopLatch

mutual

/-- Some loop of the nest (the root included) violates `cfgShapeOK`. -/
def nestHasBadCFG : Loop → Bool
  | .mk d subs => !cfgShapeOK d || nestListHasBadCFG subs

def nestListHasBadCFG : List Loop → Bool
  | [] => false
  | sl :: rest => nestHasBadCFG sl || nestListHasBadCFG rest

end

/-! ### Loop hints -/

inductive HintKind where
  | hkWidth
  | hkUnroll
  | hkForce
  | hkIsVectorized
deriving DecidableEq, Repr

/-- One vectorization hint: its metadata name (past the common tag), its
current unsigned value and its kind. -/
structure Hint where
  name : String
  value : Nat
  kind : HintKind
deriving DecidableEq, Repr

/-- `VectorizerParams::MaxVectorWidth` (an external constant, 64). -/
def maxVectorWidth : Nat := 64

/-- `MaxInterleaveFactor` of the source. -/
def maxInterleaveFactor : Nat := 16

/-- `llvm::isPowerOf2_32`. -/
def isPowerOf2_32 (v : Nat) : Bool :=
  v != 0 && (v &&& (v - 1)) == 0

/-- `LoopVectorizeHints::Hint::validate`. -/
def Hint.validate (h : Hint) (val : Nat) : Bool :=
  match h.kind with
  | .hkWidth => isPowerOf2_32 val && val ≤ maxVectorWidth
  | .hkUnroll => isPowerOf2_32 val && val ≤ maxInterleaveFactor
  | .hkForce => val ≤ 1
  | .hkIsVectorized => val == 0 || val == 1

/-- A metadata argument: a constant integer or anything
`mdconst::dyn_extract<ConstantInt>` rejects. -/
inductive MDArg where
  | constInt (value : Nat)
  | other
deriving DecidableEq, Repr

/-- One operand of a loop id metadata node (the self-reference operand
excluded): a bare metadata string, a metadata node whose first operand
may be a string followed by the remaining operands as arguments, or any
other metadata. -/
inductive MDEntry where
  | str (s : String)
  | node (first : Option String) (args : List MDArg)
  | other
deriving DecidableEq, Repr

/-- The name under which an entry is known: the string itself, or a
node's leading string. -/
def MDEntry.name : MDEntry → Option String
  | .str s => some s
  | .node (some s) _ => some s
  | _ => none

/-- The four hints of `LoopVectorizeHints`, in the order the source
declares (and scans) them. -/
structure LoopVectorizeHints where
  width : Hint
  interleave : Hint
  force : Hint
  isVectorized : Hint
deriving DecidableEq, Repr

/-- `LoopVectorizeHints::Prefix()`, the tag every recognized hint name
starts with (the literal the source writes into the `isvectorized`
marker). -/
def metadataTag : String := "llvm.loop."

/-- `StringRef::startswith`, computed over the character list (kernel
reducible, unlike the built-in `String` operations). -/
def strStartsWith (s pre : String) : Bool :=
  pre.data.isPrefixOf s.data

/-- `StringRef::substr(n, npos)` — dropping the first `n` characters. -/
def strDrop (s : String) (n : Nat) : String :=
  ⟨s.data.drop n⟩

/-- `LoopVectorizeHints::setHint`: names not under the tag are ignored;
the argument must extract to a constant integer (taken as `unsigned`,
hence modulo 2^32); the first hint whose name matches is updated when the
value validates, and an invalid value is ignored. -/
def setHint (h : LoopVectorizeHints) (nm : String) (arg : MDArg) : LoopVectorizeHints :=
  if !strStartsWith nm metadataTag then h
  else
    let nm := strDrop nm metadataTag.length
    match arg with
    | .other => h
    | .constInt c =>
      let val := c % 4294967296
      if nm = h.width.name then
        if h.width.validate val then { h with width := { h.width with value := val } } else h
      else if nm = h.interleave.name then
        if h.interleave.validate val then
          { h with interleave := { h.interleave with value := val } }
        else h
      else if nm = h.force.name then
        if h.force.validate val then { h with force := { h.force with value := val } } else h
      else if nm = h.isVectorized.name then
        if h.isVectorized.validate val then
          { h with isVectorized := { h.isVectorized with value := val } }
        else h
      else h

/-- One iteration of the `getHintsFromMetadata` scan: only an entry that
is (or starts with) a metadata string and carries exactly one argument
reaches `setHint`. -/
def applyHintMDEntry (h : LoopVectorizeHints) (e : MDEntry) : LoopVectorizeHints :=
  match e with
  | .node (some s) [a] => setHint h s a
  | _ => h

/-- `LoopVectorizeHints::getHintsFromMetadata`: scan the loop id's
operands; no loop id leaves the defaults. -/
def getHintsFromMetadata (h : LoopVectorizeHints) (loopID : Option (List MDEntry)) :
    LoopVectorizeHints :=
  match loopID with
  | none => h
  | some entries => entries.foldl applyHintMDEntry h

/-- `FK_Undefined` (-1) as the unsigned hint value it is stored as. -/
def fkUndefinedValue : Nat := 4294967295

/-- The `LoopVectorizeHints` constructor up to (not including) the final
already-vectorized derivation: defaults, the metadata scan, and the
`force-vector-interleave` override. -/
def LoopVectorizeHints.preDerive (vectorizationFactor : Nat)
    (interleaveOnlyWhenForced : Bool) (isInterleaveForced : Bool)
    (vectorizationInterleave : Nat) (loopID : Option (List MDEntry)) :
    LoopVectorizeHints :=
  let h : LoopVectorizeHints :=
    { width := { name := "vectorize.width", value := vectorizationFactor, kind := .hkWidth }
      interleave := { name := "interleave.count",
                      value := if interleaveOnlyWhenForced then 1 else 0, kind := .hkUnroll }
      force := { name := "vectorize.enable", value := fkUndefinedValue, kind := .hkForce }
      isVectorized := { name := "isvectorized", value := 0, kind := .hkIsVectorized } }
  let h := getHintsFromMetadata h loopID
  if isInterleaveForced then
    { h with interleave := { h.interleave with value := vectorizationInterleave } }
  else h

/-- The full `LoopVectorizeHints` constructor: after the scan, when the
already-vectorized value is not 1 it is derived as
`Width.Value == 1 && Interleave.Value == 1`. -/
def LoopVectorizeHints.construct (vectorizationFactor : Nat)
    (interleaveOnlyWhenForced : Bool) (isInterleaveForced : Bool)
    (vectorizationInterleave : Nat) (loopID : Option (List MDEntry)) :
    LoopVectorizeHints :=
  let h := LoopVectorizeHints.preDerive vectorizationFactor interleaveOnlyWhenForced
    isInterleaveForced vectorizationInterleave loopID
  if h.isVectorized.value ≠ 1 then
    { h with isVectorized := { h.isVectorized with
        value := if h.width.value == 1 && h.interleave.value == 1 then 1 else 0 } }
  else h

/-- Modelled from the spec: `makePostTransformationMetadata` is LLVM
library code whose definition is not among this repository's files.  Per
the spec's description of `setAlreadyVectorized` ("adds/replaces the
isvectorized entry, preserving all other entries under the same prefix
family except the width/interleave entries, which are dropped"), the
rewrite keeps every entry whose name neither starts with a removed
prefix nor equals the name of an added entry, and appends the added
entries. -/
def makePostTransformationMetadataKeep (removePrefixes : List String)
    (add : List MDEntry) (e : MDEntry) : Bool :=
  match e.name with
  | some n =>
    !(removePrefixes.any (fun p => strStartsWith n p) ||
      add.any fun a => a.name = some n)
  | none => true

/-- The rewrite itself: drop the entries the keep predicate rejects and
append the added entries. -/
def makePostTransformationMetadata (orig : Option (List MDEntry))
    (removePrefixes : List String) (add : List MDEntry) : List MDEntry :=
  (orig.getD []).filter (makePostTransformationMetadataKeep removePrefixes add) ++ add

/-- The `"llvm.loop.isvectorized" = 1` marker node `setAlreadyVectorized`
builds. -/
def isVectorizedMD : MDEntry := .node (some "llvm.loop.isvectorized") [.constInt 1]

/-- `LoopVectorizeHints::setAlreadyVectorized`: rewrite the loop id so
the `vectorize.`/`interleave.`-prefixed entries are dropped and the
`isvectorized=1` marker is added, and set the cached flag to 1.  Returns
the updated hints and the new loop id. -/
def setAlreadyVectorized (h : LoopVectorizeHints) (loopID : Option (List MDEntry)) :
    LoopVectorizeHints × Option (List MDEntry) :=
  let newLoopID := makePostTransformationMetadata loopID
    [metadataTag ++ "vectorize.", metadataTag ++ "interleave."] [isVectorizedMD]
  ({ h with isVectorized := { h.isVectorized with value := 1 } }, some newLoopID)

/-! ### Requirements tracker -/

/-- `LoopVectorizationRequirements::doesNotMeet`: both failure conditions
are evaluated (no short-circuit), each appending its remark tag;
`allowReordering` is the hints query `Hints.allowReordering()` (declared
outside this file and treated as an opaque boolean).  Returns the verdict
and the emitted remark tags. -/
def doesNotMeet (cfg : Config) (allowReordering : Bool) (s : LegState) :
    Bool × List String :=
  let failed := false
  let remarks : List String := []
  let (failed, remarks) :=
    if s.unsafeAlgebraInst.isSome && !allowReordering then
      (true, remarks ++ ["CantReorderFPOps"])
    else (failed, remarks)
  let pragmaThresholdReached :=
    cfg.pragmaVectorizeMemoryCheckThreshold < s.numRuntimePointerChecks
  let thresholdReached := cfg.runtimeMemoryCheckThreshold < s.numRuntimePointerChecks
  let (failed, remarks) :=
    if thresholdReached && !allowReordering || pragmaThresholdReached then
      (true, remarks ++ ["CantReorderMemOps"])
    else (failed, remarks)
  (failed, remarks)

/-! ### Outer-loop uniformity -/

/-- `isUniformLoop`: trivially true for the outer loop itself; otherwise
the inner loop needs a canonical IV, a conditional latch branch whose
condition is a compare of the IV update against an outer-loop-invariant
value. -/
def isUniformLoop (env : Env) (lp outerLp : LoopData) : Bool :=
  if lp.id == outerLp.id then true
  else
    match lp.canonicalInductionVariableUpdate with
    | none => false
    | some ivUpdate =>
      match lp.latchBranch with
      | none => false
      | some latchBr =>
        if !latchBr.isConditional then false
        else
          match latchBr.conditionCmpOperands with
          | none => false
          | some (condOp0, condOp1) =>
            if !(condOp0 == ivUpdate && env.isLoopInvariantIn outerLp.id condOp1) &&
               !(condOp1 == ivUpdate && env.isLoopInvariantIn outerLp.id condOp0) then
              false
            else true

mutual

/-- `isUniformLoopNest`: `isUniformLoop` on this loop and recursively on
all nested loops. -/
def isUniformLoopNest (env : Env) (outerLp : LoopData) : Loop → Bool
  | .mk d subs =>
    if !isUniformLoop env d outerLp then false
    else isUniformLoopNestSubs env outerLp subs

def isUniformLoopNestSubs (env : Env) (outerLp : LoopData) : List Loop → Bool
  | [] => true
  | sl :: rest =>
    if !isUniformLoopNest env outerLp sl then false
    else isUniformLoopNestSubs env outerLp rest

end

/-! ### Induction bookkeeping and outer-loop inductions -/

/-- `LoopVectorizationLegality::addInductionPhi`: record the descriptor,
remember the first cast to ignore, update the widest induction type,
possibly promote the phi to primary induction (canonical 0-start/1-step
integer inductions only), and allow the phi and its latch update to exit
the loop exactly when the union predicate is trivially true. -/
def addInductionPhi (phiId : Nat) (phiTy : Ty) (latchIncomingValue : Nat)
    (id : InductionDescriptor) (s : LegState) : LegState :=
  let s := { s with inductions := s.inductions ++ [(phiId, id)] }
  let s :=
    match id.castInsts with
    | [] => s
    | c :: _ => { s with inductionCastsToIgnore := s.inductionCastsToIgnore.insert c }
  let s :=
    if !phiTy.isFloatingPointTy then
      match s.widestIndTy with
      | none => { s with widestIndTy := some (convertPointerToIntegerType phiTy) }
      | some w => { s with widestIndTy := some (getWiderType phiTy w) }
    else s
  let s :=
    if id.kind == .ikIntInduction && id.constIntStepIsOne && id.startValueIsConstNull then
      match s.primaryInduction with
      | none => { s with primaryInduction := some (phiId, phiTy) }
      | some _ =>
        if some phiTy == s.widestIndTy then
          { s with primaryInduction := some (phiId, phiTy) }
        else s
    else s
  if s.pse.isEmpty then
    { s with allowedExit := (s.allowedExit.insert phiId).insert latchIncomingValue }
  else s

/-- The `llvm::all_of(Header->phis(), isSupportedPhi)` scan of
`setupOuterLoopInductions` (it short-circuits, so phis before the first
unsupported one are recorded). -/
def setupOuterLoopInductionsPhis :
    LegState → List (Instruction × PHINodeData) → Bool × LegState
  | s, [] => (true, s)
  | s, (i, p) :: rest =>
    match p.isInductionPHI with
    | some id =>
      if id.kind == .ikIntInduction then
        setupOuterLoopInductionsPhis (addInductionPhi i.id i.ty p.latchIncomingValue id s) rest
      else (false, s)
    | none => (false, s)

/-- `LoopVectorizationLegality::setupOuterLoopInductions`. -/
def setupOuterLoopInductions (d : LoopData) (s : LegState) : Bool × LegState :=
  setupOuterLoopInductionsPhis s d.headerBlock.phis

/-! ### Outer-loop vectorizability -/

/-- The per-block terminator scan of `canVectorizeOuterLoop`: the
terminator must be a branch, and a conditional branch must have an
outer-invariant condition or target a loop header, unless VPlan
predication is enabled. -/
def checkOuterBlocks (cfg : Config) (env : Env) (dx : Bool) :
    List BasicBlock → Bool → Bool
  | [], result => result
  | bb :: rest, result =>
    match bb.terminatorBranch with
    | none => if dx then checkOuterBlocks cfg env dx rest false else false
    | some br =>
      if !cfg.enableVPlanPredication && br.isConditional &&
          !br.conditionIsLoopInvariant && !env.isLoopHeader br.successor0 &&
          !env.isLoopHeader br.successor1 then
        if dx then checkOuterBlocks cfg env dx rest false else false
      else checkOuterBlocks cfg env dx rest result

/-- `LoopVectorizationLegality::canVectorizeOuterLoop`: block terminators,
then nest uniformity, then outer-loop induction setup, under the
collect-or-fail-fast mode. -/
def canVectorizeOuterLoop (cfg : Config) (env : Env) (lp : Loop) (s : LegState) :
    Bool × LegState :=
  let dx := env.doExtraAnalysis
  let blockResult := checkOuterBlocks cfg env dx lp.data.blocks true
  if !blockResult && !dx then (false, s)
  else if !isUniformLoopNest env lp.data lp then
    if dx then
      match setupOuterLoopInductions lp.data s with
      | (_, s') => (false, s')
    else (false, s)
  else
    match setupOuterLoopInductions lp.data s with
    | (false, s') => (false, s')
    | (true, s') => (blockResult, s')

/-! ### If-conversion feasibility -/

/-- `canIfConvertPHINodes`: a phi with an incoming constant that can trap
makes the block unsafe to if-convert. -/
def canIfConvertPHINodes (bb : BasicBlock) : Bool :=
  bb.phis.all fun ip => ip.2.incoming.all fun v => !(v.isConstant && v.canTrap)

/-- The store/throw tail of `blockCanBePredicated`'s per-instruction
body: a memory-writing instruction must be a store (recorded in
`MaskedOp` unconditionally); past the memory checks, an instruction that
may throw disqualifies the block.  `none` aborts the block. -/
def predWriteThrowStep (s : LegState) (i : Instruction) : Option LegState :=
  if i.mayWriteToMemory then
    match i.store with
    | none => none
    | some _ => some { s with maskedOp := s.maskedOp.insert i.id }
  else if i.mayThrow then none
  else some s

/-- `LoopVectorizationLegality::blockCanBePredicated`: no trapping
constant operands; reads must be loads — a load from a pointer outside
the safe set is recorded in `MaskedOp` (unless the loop is annotated
parallel) and the instruction is done, while a load from a safe pointer
falls through to the write/throw checks; writes must be stores and are
recorded in `MaskedOp`; whatever reaches the last check must not throw. -/
def blockCanBePredicated (isAnnotatedParallel : Bool) (safePtrs : List Nat) :
    LegState → List Instruction → Bool × LegState
  | s, [] => (true, s)
  | s, i :: rest =>
    if i.hasTrappingConstantOperand then (false, s)
    else if i.mayReadFromMemory then
      match i.load with
      | none => (false, s)
      | some p =>
        if !safePtrs.contains p then
          let s' := if !isAnnotatedParallel then
              { s with maskedOp := s.maskedOp.insert i.id }
            else s
          blockCanBePredicated isAnnotatedParallel safePtrs s' rest
        else
          match predWriteThrowStep s i with
          | none => (false, s)
          | some s' => blockCanBePredicated isAnnotatedParallel safePtrs s' rest
    else
      match predWriteThrowStep s i with
      | none => (false, s)
      | some s' => blockCanBePredicated isAnnotatedParallel safePtrs s' rest

/-- The safe-address collection pass of `canVectorizeWithIfConvert`: the
load/store pointers of every block that does not need predication. -/
def collectSafePointers (env : Env) (blocks : List BasicBlock) : List Nat :=
  blocks.foldl
    (fun acc bb =>
      if env.blockNeedsPredication bb.id then acc
      else
        bb.instrs.foldl
          (fun acc2 i =>
            match getLoadStorePointerOperand i with
            | some p => acc2.insert p
            | none => acc2)
          acc)
    []

/-- The second pass of `canVectorizeWithIfConvert`: switches are
rejected; blocks needing predication must pass `blockCanBePredicated`;
non-header blocks that need no predication must pass
`canIfConvertPHINodes`. -/
def canVectorizeWithIfConvertBlocks (env : Env) (isAnnotatedParallel : Bool)
    (headerId : Nat) (safePtrs : List Nat) :
    LegState → List BasicBlock → Bool × LegState
  | s, [] => (true, s)
  | s, bb :: rest =>
    if bb.terminatorBranch.isNone then (false, s)
    else if env.blockNeedsPredication bb.id then
      match blockCanBePredicated isAnnotatedParallel safePtrs s bb.instrs with
      | (false, s') => (false, s')
      | (true, s') =>
        canVectorizeWithIfConvertBlocks env isAnnotatedParallel headerId safePtrs s' rest
    else if bb.id != headerId && !canIfConvertPHINodes bb then (false, s)
    else canVectorizeWithIfConvertBlocks env isAnnotatedParallel headerId safePtrs s rest

/-- `LoopVectorizationLegality::canVectorizeWithIfConvert`. -/
def canVectorizeWithIfConvert (cfg : Config) (env : Env) (d : LoopData)
    (s : LegState) : Bool × LegState :=
  if !cfg.enableIfConversion then (false, s)
  else
    let safePtrs := collectSafePointers env d.blocks
    canVectorizeWithIfConvertBlocks env d.isAnnotatedParallel d.headerId safePtrs s d.blocks

/-! ### Instruction and phi classification -/

/-- `hasOutsideLoopUser`: the instruction is not in `AllowedExit` and has
a user outside the loop. -/
def hasOutsideLoopUser (env : Env) (instId : Nat) (allowedExit : List Nat) : Bool :=
  if !allowedExit.contains instId then
    (env.instrUsers instId).any fun u => !env.loopContains u
  else false

/-- The outside-user tail of `canVectorizeInstrs`'s per-instruction body:
an instruction used outside the loop is retroactively allowed to exit
when the union predicate is trivially true, and otherwise fails the
analysis. -/
def canVectorizeInstrsOutsideUserCheck (env : Env) (s : LegState) (i : Instruction) :
    Bool × LegState :=
  if hasOutsideLoopUser env i.id s.allowedExit then
    if s.pse.isEmpty then (true, { s with allowedExit := s.allowedExit.insert i.id })
    else (false, s)
  else (true, s)

/-- The per-instruction body of `canVectorizeInstrs`: phi type check,
non-header phis accepted, header phis need two incoming values and are
classified reduction → induction → first-order recurrence →
induction-after-AddRec-coercion; non-phis go through the call checks,
the type checks, the store check or the FP-unsafe flag, and the
outside-user check. -/
def canVectorizeInstrsStep (env : Env) (headerId blockId : Nat) (s : LegState)
    (i : Instruction) : Bool × LegState :=
  match i.phi with
  | some phi =>
    if !i.ty.isIntegerTy && !i.ty.isFloatingPointTy && !i.ty.isPointerTy then (false, s)
    else if blockId != headerId then (true, s)
    else if phi.incoming.length != 2 then (false, s)
    else
      match phi.isReductionPHI with
      | some redDes =>
        let s := if redDes.hasUnsafeAlgebra then
            addUnsafeAlgebraInst redDes.unsafeAlgebraInst s
          else s
        let s := { s with allowedExit := s.allowedExit.insert redDes.loopExitInstr }
        (true, { s with reductions := s.reductions ++ [(i.id, redDes)] })
      | none =>
        match phi.isInductionPHI with
        | some id =>
          let s := addInductionPhi i.id i.ty phi.latchIncomingValue id s
          let s := if id.hasUnsafeAlgebra && !s.hasFunNoNaNAttr then
              addUnsafeAlgebraInst id.unsafeAlgebraInst s
            else s
          (true, s)
        | none =>
          if phi.isFirstOrderRecurrenceResult then
            (true, { s with firstOrderRecurrences := s.firstOrderRecurrences.insert i.id })
          else
            match phi.isInductionPHIAssume with
            | some id => (true, addInductionPhi i.id i.ty phi.latchIncomingValue id s)
            | none => (false, s)
  | none =>
    let callFails :=
      match i.call with
      | some ci =>
        !ci.hasVectorIntrinsicID && !ci.isDbgInfoIntrinsic && !ci.hasVectorizableFunction
      | none => false
    if callFails then (false, s)
    else
      let intrinsicFails :=
        match i.call with
        | some ci => ci.hasNonInvariantScalarOpd
        | none => false
      if intrinsicFails then (false, s)
      else if (!i.typeIsValidElement && !i.ty.isVoidTy) || i.isExtractElementInst then
        (false, s)
      else
        match i.store with
        | some st =>
          if !st.valueTypeIsValidElement then (false, s)
          else canVectorizeInstrsOutsideUserCheck env s i
        | none =>
          let s := if i.ty.isFloatingPointTy && (i.call.isSome || i.isBinaryOp) && !i.isFast then
              { s with potentiallyUnsafe := true }
            else s
          canVectorizeInstrsOutsideUserCheck env s i

/-- The instruction scan of one block in `canVectorizeInstrs`. -/
def canVectorizeInstrsList (env : Env) (headerId blockId : Nat) :
    LegState → List Instruction → Bool × LegState
  | s, [] => (true, s)
  | s, i :: rest =>
    match canVectorizeInstrsStep env headerId blockId s i with
    | (false, s') => (false, s')
    | (true, s') => canVectorizeInstrsList env headerId blockId s' rest

/-- The block scan of `canVectorizeInstrs`. -/
def canVectorizeInstrsBlocks (env : Env) (headerId : Nat) :
    LegState → List BasicBlock → Bool × LegState
  | s, [] => (true, s)
  | s, bb :: rest =>
    match canVectorizeInstrsList env headerId bb.id s bb.instrs with
    | (false, s') => (false, s')
    | (true, s') => canVectorizeInstrsBlocks env headerId s' rest

/-- `LoopVectorizationLegality::canVectorizeInstrs`: record the no-NaN
attribute, scan every block, then check a primary induction (or at
least some induction with an integer widest type) was found, and clear
the primary induction when its type is not the widest. -/
def canVectorizeInstrs (env : Env) (d : LoopData) (s : LegState) : Bool × LegState :=
  let s := { s with hasFunNoNaNAttr := env.funNoNaN }
  match canVectorizeInstrsBlocks env d.headerId s d.blocks with
  | (false, s1) => (false, s1)
  | (true, s1) =>
    if s1.primaryInduction.isNone && s1.inductions.isEmpty then (false, s1)
    else if s1.primaryInduction.isNone && s1.widestIndTy.isNone then (false, s1)
    else
      match s1.primaryInduction with
      | some pt =>
        if s1.widestIndTy != some pt.2 then (true, { s1 with primaryInduction := none })
        else (true, s1)
      | none => (true, s1)

/-! ### Memory legality -/

/-- `LoopVectorizationLegality::canVectorizeMemory`: delegate to the
memory-dependence collaborator, reject on its verdict or on a dependence
involving a loop-invariant address, and on success record the runtime
pointer check count and merge the collaborator's predicate. -/
def canVectorizeMemory (env : Env) (s : LegState) : Bool × LegState :=
  if !env.lai.canVectorizeMemoryResult then (false, s)
  else if env.lai.hasDependenceInvolvingLoopInvariantAddress then (false, s)
  else
    let s := { s with numRuntimePointerChecks := env.lai.numRuntimePointerChecks }
    let s := { s with pse := s.pse ++ env.lai.unionPredicate }
    (true, s)

/-! ### The orchestrator -/

/-- `SCEVUnionPredicate::getComplexity`: the sum of the member
predicates' complexities. -/
def predComplexity (pse : List Nat) : Nat := pse.foldl (· + ·) 0

/-- The collect-or-fail-fast sequencer for a stateful check: on failure,
fail-fast mode returns false with the state the check left; collect mode
clears the accumulated result and continues. -/
def seqCheck (dx : Bool) (check : LegState → Bool × LegState) (result : Bool)
    (s : LegState) (k : Bool → LegState → Bool × LegState) : Bool × LegState :=
  match check s with
  | (true, s') => k result s'
  | (false, s') => if dx then k false s' else (false, s')

/-- `LoopVectorizationLegality::canVectorize`: loop-nest CFG shape; for
outer loops only the outer-loop path; for inner loops if-conversion (when
multi-block), instruction/phi classification, memory legality, and the
SCEV assumption-complexity threshold (pragma-relaxed when vectorization
is forced). -/
def canVectorize (cfg : Config) (env : Env) (hints : LoopVectorizeHints)
    (lp : Loop) (s : LegState) : Bool × LegState :=
  let dx := env.doExtraAnalysis
  seqCheck dx (fun s => (canVectorizeLoopNestCFG dx lp, s)) true s fun result s =>
  if !lp.subLoops.isEmpty then
    match canVectorizeOuterLoop cfg env lp s with
    | (false, s') => (false, s')
    | (true, s') => (result, s')
  else
    seqCheck dx
      (fun s =>
        if lp.data.blocks.length != 1 then canVectorizeWithIfConvert cfg env lp.data s
        else (true, s))
      result s fun result s =>
    seqCheck dx (canVectorizeInstrs env lp.data) result s fun result s =>
    seqCheck dx (canVectorizeMemory env) result s fun result s =>
    let scevThreshold :=
      if hints.force.value == 1 then cfg.pragmaVectorizeSCEVCheckThreshold
      else cfg.vectorizeSCEVCheckThreshold
    seqCheck dx (fun s => (!(scevThreshold < predComplexity s.pse), s)) result s
      fun result s => (result, s)

/-! ### Tail folding by masking -/

/-- The block scan of `canFoldTailByMasking`: every block — the header
included — must pass `blockCanBePredicated` with the empty safe-pointer
set. -/
def canFoldTailByMaskingBlocks (isAnnotatedParallel : Bool) :
    LegState → List BasicBlock → Bool × LegState
  | s, [] => (true, s)
  | s, bb :: rest =>
    match blockCanBePredicated isAnnotatedParallel [] s bb.instrs with
    | (false, s') => (false, s')
    | (true, s') => canFoldTailByMaskingBlocks isAnnotatedParallel s' rest

/-- `LoopVectorizationLegality::canFoldTailByMasking`: a primary
induction must exist, no reductions, no allowed-exit value may have a
user outside the loop, and every block must be predicable against an
empty safe-pointer set. -/
def canFoldTailByMasking (env : Env) (d : LoopData) (s : LegState) : Bool × LegState :=
  if s.primaryInduction.isNone then (false, s)
  else if !s.reductions.isEmpty then (false, s)
  else if s.allowedExit.any (fun ae => (env.instrUsers ae).any fun u => !env.loopContains u) then
    (false, s)
  else canFoldTailByMaskingBlocks d.isAnnotatedParallel s d.blocks

theorem canVectorizeLoopCFG_eq (dx : Bool) (d : LoopData) :
    canVectorizeLoopCFG dx d = cfgShapeOK d := by
  unfold canVectorizeLoopCFG cfgShapeOK checkOr
  cases dx <;>
    cases hp : d.loopPreheader.isSome <;>
      cases hb : d.numBackEdges == 1 <;>
        cases he : d.exitingBlock.isSome <;>
          cases hl : d.exitingBlock == d.loopLatch <;> simp [hp, hb, he, hl]

mutual

theorem canVectorizeLoopNestCFG_of_bad (dx : Bool) (lp : Loop)
    (h : nestHasBadCFG lp = true) : canVectorizeLoopNestCFG dx lp = false := by
  cases lp with
  | mk d subs =>
    simp only [nestHasBadCFG, Bool.or_eq_true] at h
    simp only [canVectorizeLoopNestCFG, canVectorizeLoopCFG_eq]
    rcases h with h | h
    · have hbad : cfgShapeOK d = false := by
        cases hc : cfgShapeOK d <;> simp_all
      rw [hbad]
      cases dx
      · simp
      · simp [canVectorizeLoopNestCFGSubs_false _ subs]
    · cases hc : cfgShapeOK d
      · cases dx
        · simp
        · simp [canVectorizeLoopNestCFGSubs_false _ subs]
      · simp [canVectorizeLoopNestCFGSubs_of_bad dx subs true h]

theorem canVectorizeLoopNestCFGSubs_of_bad (dx : Bool) (ls : List Loop)
    (result : Bool) (h : nestListHasBadCFG ls = true) :
    canVectorizeLoopNestCFGSubs dx ls result = false := by
  cases ls with
  | nil => simp [nestListHasBadCFG] at h
  | cons sl rest =>
    simp only [nestListHasBadCFG, Bool.or_eq_true] at h
    simp only [canVectorizeLoopNestCFGSubs]
    rcases h with h | h
    · rw [canVectorizeLoopNestCFG_of_bad dx sl h]
      cases dx
      · simp
      · simp [canVectorizeLoopNestCFGSubs_false _ rest]
    · cases hc : canVectorizeLoopNestCFG dx sl
      · cases dx
        · simp
        · simp [canVectorizeLoopNestCFGSubs_false _ rest]
      · simp [canVectorizeLoopNestCFGSubs_of_bad dx rest result h]

/-- Once the accumulated `Result` is false, the recursion over sub-loops
can only return false. -/
theorem canVectorizeLoopNestCFGSubs_false (dx : Bool) (ls : List Loop) :
    canVectorizeLoopNestCFGSubs dx ls false = false := by
  cases ls with
  | nil => simp [canVectorizeLoopNestCFGSubs]
  | cons sl rest =>
    simp only [canVectorizeLoopNestCFGSubs]
    cases hc : canVectorizeLoopNestCFG dx sl
    · cases dx <;> simp [canVectorizeLoopNestCFGSubs_false _ rest]
    · simp [canVectorizeLoopNestCFGSubs_false _ rest]

end

/-- Once the accumulated result is false, a `seqCheck` whose continuation
preserves a false result returns false. -/
theorem seqCheck_fst_false (dx : Bool) (check : LegState → Bool × LegState)
    (s : LegState) (k : Bool → LegState → Bool × LegState)
    (hk : ∀ s', (k false s').1 = false) :
    (seqCheck dx check false s k).1 = false := by
  unfold seqCheck
  rcases check s with ⟨b, s'⟩
  cases b
  · cases dx <;> simp [hk]
  · simp [hk]

/-- C1: for every loop nest containing a loop that lacks a preheader, or
does not have exactly one back-edge, or has no single exiting block, or
whose single exiting block is not the loop latch, `canVectorize` (which
applies `canVectorizeLoopCFG` recursively over the nest through
`canVectorizeLoopNestCFG`) returns false. -/
theorem C1_canVectorize_false_of_bad_cfg (cfg : Config) (env : Env)
    (hints : LoopVectorizeHints) (lp : Loop) (s : LegState)
    (h : nestHasBadCFG lp = true) :
    (canVectorize cfg env hints lp s).1 = false := by
  have hnest : canVectorizeLoopNestCFG env.doExtraAnalysis lp = false :=
    canVectorizeLoopNestCFG_of_bad _ _ h
  unfold canVectorize
  simp only [seqCheck, hnest]
  cases hdx : env.doExtraAnalysis
  · simp
  · simp only [Bool.false_eq_true, if_false, if_true, reduceIte]
    repeat' split
    all_goals simp

/-- The `AllowedExit` update of `addInductionPhi`, isolated: the double
insert happens exactly when the union predicate is empty. -/
theorem addInductionPhi_allowedExit_eq (phiId : Nat) (phiTy : Ty)
    (latchIncomingValue : Nat) (id : InductionDescriptor) (s : LegState) :
    (addInductionPhi phiId phiTy latchIncomingValue id s).allowedExit =
      (if s.pse.isEmpty then (s.allowedExit.insert phiId).insert latchIncomingValue
       else s.allowedExit) := by
  unfold addInductionPhi
  cases hcast : id.castInsts <;> cases hfp : phiTy.isFloatingPointTy <;>
    cases hw : s.widestIndTy <;> cases hp : s.primaryInduction <;>
      cases hpse : s.pse <;> repeat' split <;>
        first
        | contradiction
        | rfl
        | simp [hpse]
        | (split_ifs <;> first | contradiction | rfl)

/-- C10: `addInductionPhi` inserts the phi and its latch incoming value
into `AllowedExit` exactly when the accumulated union assumption
predicate is trivially true (empty) at classification time; when it is
not, `AllowedExit` is left unchanged, so neither the induction phi nor
its increment is permitted an outside use through it. -/
theorem C10_addInductionPhi_allowedExit (phiId : Nat) (phiTy : Ty)
    (latchIncomingValue : Nat) (id : InductionDescriptor) (s : LegState) :
    (addInductionPhi phiId phiTy latchIncomingValue id s).allowedExit =
      (if s.pse.isEmpty then (s.allowedExit.insert phiId).insert latchIncomingValue
       else s.allowedExit) ∧
    (s.pse.isEmpty = true →
      phiId ∈ (addInductionPhi phiId phiTy latchIncomingValue id s).allowedExit ∧
        latchIncomingValue ∈ (addInductionPhi phiId phiTy latchIncomingValue id s).allowedExit) := by
  have hmain := addInductionPhi_allowedExit_eq phiId phiTy latchIncomingValue id s
  refine ⟨hmain, fun hpse => ?_⟩
  rw [hmain, if_pos hpse]
  constructor
  · exact List.subset_insert _ _ (List.mem_insert_self _ _)
  · exact List.mem_insert_self _ _

/-- C4: `doesNotMeet` returns true iff an unsafe-algebra instruction was
recorded while the hints disallow reordering, or the recorded
runtime-pointer-check count exceeds the pragma threshold, or exceeds the
normal threshold while reordering is disallowed; both failure conditions
are evaluated (no short-circuit), so both remark tags are emitted in one
call when both conditions hold. -/
theorem C4_doesNotMeet_iff (cfg : Config) (allowReordering : Bool) (s : LegState) :
    ((doesNotMeet cfg allowReordering s).1 = true ↔
      ((s.unsafeAlgebraInst.isSome = true ∧ allowReordering = false) ∨
        ((cfg.runtimeMemoryCheckThreshold < s.numRuntimePointerChecks ∧
            allowReordering = false) ∨
          cfg.pragmaVectorizeMemoryCheckThreshold < s.numRuntimePointerChecks))) ∧
    (doesNotMeet cfg allowReordering s).2 =
      (if s.unsafeAlgebraInst.isSome && !allowReordering then ["CantReorderFPOps"]
       else []) ++
      (if (decide (cfg.runtimeMemoryCheckThreshold < s.numRuntimePointerChecks) &&
            !allowReordering) ||
          decide (cfg.pragmaVectorizeMemoryCheckThreshold < s.numRuntimePointerChecks) then
        ["CantReorderMemOps"]
       else []) := by
  unfold doesNotMeet
  constructor
  · cases hu : s.unsafeAlgebraInst.isSome <;> cases allowReordering <;>
      by_cases h1 : cfg.runtimeMemoryCheckThreshold < s.numRuntimePointerChecks <;>
        by_cases h2 : cfg.pragmaVectorizeMemoryCheckThreshold < s.numRuntimePointerChecks <;>
          simp_all <;> repeat' split <;> simp_all
  · cases hu : s.unsafeAlgebraInst.isSome <;> cases allowReordering <;>
      by_cases h1 : cfg.runtimeMemoryCheckThreshold < s.numRuntimePointerChecks <;>
        by_cases h2 : cfg.pragmaVectorizeMemoryCheckThreshold < s.numRuntimePointerChecks <;>
          simp_all <;> repeat' split <;> simp_all

/-- The abort verdict of `predWriteThrowStep` depends only on the
instruction, not on the state. -/
theorem predWriteThrowStep_isSome (s t : LegState) (i : Instruction) :
    (predWriteThrowStep s i).isSome = (predWriteThrowStep t i).isSome := by
  unfold predWriteThrowStep
  repeat' split <;> first | rfl | simp_all | (cases i.store <;> rfl)

/-- The verdict of `blockCanBePredicated` does not depend on the incoming
state (the state only accumulates `MaskedOp`). -/
theorem blockCanBePredicated_fst_indep (par : Bool) (safePtrs : List Nat)
    (instrs : List Instruction) : ∀ s t : LegState,
    (blockCanBePredicated par safePtrs s instrs).1 =
      (blockCanBePredicated par safePtrs t instrs).1 := by
  induction instrs with
  | nil => intro s t; rfl
  | cons i rest ih =>
    intro s t
    simp only [blockCanBePredicated]
    have hwt := predWriteThrowStep_isSome s t i
    cases htrap : i.hasTrappingConstantOperand <;>
      cases hread : i.mayReadFromMemory <;>
        rcases hload : i.load with _ | p <;>
          rcases hs : predWriteThrowStep s i with _ | s' <;>
            rcases ht : predWriteThrowStep t i with _ | t' <;>
              (try simp_all) <;> (try split) <;> (try split) <;>
                first | rfl | exact ih _ _ | simp_all

/-- The block scan of `canFoldTailByMasking` succeeds exactly when every
block's verdict from the incoming state is positive. -/
theorem canFoldTailByMaskingBlocks_fst (par : Bool) (blocks : List BasicBlock) :
    ∀ s : LegState,
    (canFoldTailByMaskingBlocks par s blocks).1 =
      blocks.all fun bb => (blockCanBePredicated par [] s bb.instrs).1 := by
  induction blocks with
  | nil => intro s; rfl
  | cons bb rest ih =>
    intro s
    simp only [canFoldTailByMaskingBlocks, List.all_cons]
    rcases hb : blockCanBePredicated par [] s bb.instrs with ⟨b, s'⟩
    cases b
    · simp
    · simp only [Bool.true_and]
      rw [ih s']
      congr 1
      funext b2
      exact blockCanBePredicated_fst_indep par [] b2.instrs s' s

/-- C3: `canFoldTailByMasking` returns true iff a primary induction is
present, the reduction map is empty, every user of every `AllowedExit`
value is inside the loop, and every block of the loop (the header
included) passes `blockCanBePredicated` with the empty safe-pointer
set. -/
theorem C3_canFoldTailByMasking_iff (env : Env) (d : LoopData) (s : LegState) :
    (canFoldTailByMasking env d s).1 =
      (s.primaryInduction.isSome && s.reductions.isEmpty &&
        (s.allowedExit.all fun ae => (env.instrUsers ae).all fun u => env.loopContains u) &&
        (d.blocks.all fun bb =>
          (blockCanBePredicated d.isAnnotatedParallel [] s bb.instrs).1)) := by
  unfold canFoldTailByMasking
  cases hpi : s.primaryInduction.isNone
  · cases hred : s.reductions.isEmpty
    · simp_all
    · cases hout : s.allowedExit.any fun ae => (env.instrUsers ae).any fun u => !env.loopContains u
      · rw [if_neg (by simp_all), if_neg (by simp [hred]), if_neg (by simp [hout])]
        rw [canFoldTailByMaskingBlocks_fst]
        have : s.primaryInduction.isSome = true := by
          cases hv : s.primaryInduction <;> simp_all
        simp only [this, hred, Bool.true_and]
        have houtall :
            (s.allowedExit.all fun ae => (env.instrUsers ae).all fun u => env.loopContains u) =
              true := by
          rw [List.all_eq_true]
          intro ae hae
          rw [List.all_eq_true]
          intro u hu
          by_contra hcu
          have : (s.allowedExit.any fun ae => (env.instrUsers ae).any fun u =>
              !env.loopContains u) = true := by
            rw [List.any_eq_true]
            exact ⟨ae, hae, by
              rw [List.any_eq_true]
              exact ⟨u, hu, by simp_all⟩⟩
          simp_all
        rw [houtall, Bool.true_and]
      · rw [if_neg (by simp_all), if_neg (by simp [hred]), if_pos (by simp [hout])]
        simp only [Bool.false_eq_true]
        rw [List.any_eq_true] at hout
        obtain ⟨ae, hae, hu⟩ := hout
        rw [List.any_eq_true] at hu
        obtain ⟨u, hu, hcu⟩ := hu
        have : (s.allowedExit.all fun ae =>
            (env.instrUsers ae).all fun u => env.loopContains u) = false := by
          rw [List.all_eq_false]
          refine ⟨ae, hae, ?_⟩
          simp only [Bool.not_eq_true]
          rw [List.all_eq_false]
          refine ⟨u, hu, ?_⟩
          simp_all
        simp [this]
  · simp_all

/-- A non-header block that needs no predication and fails
`canIfConvertPHINodes` forces the second pass of
`canVectorizeWithIfConvert` to false, wherever it sits in the block
list. -/
theorem canVectorizeWithIfConvertBlocks_false_of_mem (env : Env) (par : Bool)
    (headerId : Nat) (safePtrs : List Nat) (bb : BasicBlock)
    (hnh : bb.id ≠ headerId) (hnp : env.blockNeedsPredication bb.id = false)
    (hphi : canIfConvertPHINodes bb = false) :
    ∀ blocks : List BasicBlock, bb ∈ blocks → ∀ s,
      (canVectorizeWithIfConvertBlocks env par headerId safePtrs s blocks).1 = false := by
  intro blocks
  induction blocks with
  | nil => intro h; cases h
  | cons b rest ih =>
    intro hmem s
    rcases List.mem_cons.mp hmem with heq | hmem'
    · subst heq
      simp only [canVectorizeWithIfConvertBlocks]
      cases ht : bb.terminatorBranch.isNone
      · simp only [ht, Bool.false_eq_true, if_false, reduceIte, hnp]
        have hcond : (bb.id != headerId && !canIfConvertPHINodes bb) = true := by
          simp [hnh, hphi]
        simp [hcond]
      · simp [ht]
    · simp only [canVectorizeWithIfConvertBlocks]
      cases ht : b.terminatorBranch.isNone
      · cases hp : env.blockNeedsPredication b.id
        · cases hcp : (b.id != headerId && !canIfConvertPHINodes b)
          · simp only [ht, hp, hcp, Bool.false_eq_true, if_false]
            exact ih hmem' s
          · simp [ht, hp, hcp]
        · rcases hb : blockCanBePredicated par safePtrs s b.instrs with ⟨bv, s'⟩
          cases bv
          · simp [ht, hp, hb]
          · simp only [ht, hp, hb, Bool.false_eq_true, if_false, if_true]
            exact ih hmem' s'
      · simp [ht]

/-- The amended C6: in `canVectorizeWithIfConvert`, every block other
than the header that does not need predication must pass the
phi-trap-safety check `canIfConvertPHINodes`, and failing that check
makes `canVectorizeWithIfConvert` return false (the header itself is
exempt from this check — see the counterexample). -/
theorem C6_nonheader_phi_trap_rejected (cfg : Config) (env : Env) (d : LoopData)
    (s : LegState) (bb : BasicBlock) (hmem : bb ∈ d.blocks)
    (hnh : bb.id ≠ d.headerId)
    (hnp : env.blockNeedsPredication bb.id = false)
    (hphi : canIfConvertPHINodes bb = false) :
    (canVectorizeWithIfConvert cfg env d s).1 = false := by
  unfold canVectorizeWithIfConvert
  cases hie : cfg.enableIfConversion
  · simp
  · simp only [Bool.not_true, Bool.false_eq_true, if_false, reduceIte]
    exact canVectorizeWithIfConvertBlocks_false_of_mem env d.isAnnotatedParallel
      d.headerId (collectSafePointers env d.blocks) bb hnh hnp hphi d.blocks hmem s

/-- A header phi carrying an incoming constant expression that can
trap. -/
def trapPhi : PHINodeData :=
  { incoming := [{ valueId := 5, isConstant := true, canTrap := true },
                 { valueId := 6, isConstant := false, canTrap := false }]
    latchIncomingValue := 6
    isReductionPHI := none
    isInductionPHI := none
    isFirstOrderRecurrenceResult := false
    isInductionPHIAssume := none }

/-- The phi instruction holding `trapPhi`. -/
def trapPhiInstr : Instruction :=
  { id := 10, ty := .int 32, phi := some trapPhi, call := none,
    typeIsValidElement := true, isExtractElementInst := false, load := none,
    store := none, isBinaryOp := false, isFast := false,
    hasTrappingConstantOperand := true, mayReadFromMemory := false,
    mayWriteToMemory := false, mayThrow := false }

/-- A conditional branch terminator for the concrete blocks. -/
def condBr : BranchData :=
  { isConditional := true, conditionIsLoopInvariant := false,
    successor0 := 0, successor1 := 1 }

/-- A header block containing the trapping phi. -/
def headerWithTrapPhi : BasicBlock :=
  { id := 0, instrs := [trapPhiInstr], terminatorBranch := some condBr }

/-- An empty latch block. -/
def emptyLatchBlock : BasicBlock :=
  { id := 1, instrs := [], terminatorBranch := some condBr }

/-- A latch block containing the trapping phi (for the amended C6's
witness). -/
def latchWithTrapPhi : BasicBlock :=
  { id := 1, instrs := [trapPhiInstr], terminatorBranch := some condBr }

/-- A two-block loop whose header carries the trapping phi. -/
def loopHeaderTrap : LoopData :=
  { id := 0, headerId := 0, loopPreheader := some 100, numBackEdges := 1,
    exitingBlock := some 1, loopLatch := some 1,
    blocks := [headerWithTrapPhi, emptyLatchBlock], isAnnotatedParallel := false,
    canonicalInductionVariableUpdate := none, latchBranch := none }

/-- A two-block loop whose (non-header) latch carries the trapping phi. -/
def loopLatchTrap : LoopData :=
  { id := 0, headerId := 0, loopPreheader := some 100, numBackEdges := 1,
    exitingBlock := some 1, loopLatch := some 1,
    blocks := [{ id := 0, instrs := [], terminatorBranch := some condBr },
               latchWithTrapPhi],
    isAnnotatedParallel := false,
    canonicalInductionVariableUpdate := none, latchBranch := none }

/-- An environment in which no block needs predication. -/
def envNoPred : Env :=
  { doExtraAnalysis := false, funNoNaN := false, instrUsers := fun _ => [],
    loopContains := fun _ => true, blockNeedsPredication := fun _ => false,
    isLoopHeader := fun _ => false, isLoopInvariantIn := fun _ _ => false,
    lai := { canVectorizeMemoryResult := true,
             hasDependenceInvolvingLoopInvariantAddress := false,
             numRuntimePointerChecks := 0, unionPredicate := [] } }

/-- C6 counterexample: a loop whose header (needing no predication)
fails the phi-trap-safety check, yet `canVectorizeWithIfConvert` returns
true — the source exempts the header block (`BB != Header`) from
`canIfConvertPHINodes`, so the claim as stated is false. -/
theorem C6_counterexample_header_exempt :
    canIfConvertPHINodes headerWithTrapPhi = false ∧
    envNoPred.blockNeedsPredication loopHeaderTrap.headerId = false ∧
    headerWithTrapPhi ∈ loopHeaderTrap.blocks ∧
    headerWithTrapPhi.id = loopHeaderTrap.headerId ∧
    (canVectorizeWithIfConvert {} envNoPred loopHeaderTrap LegState.initial).1 = true := by
  refine ⟨by decide, by decide, by decide, by decide, by decide⟩

/-- Witness for the amended C6: the same trapping phi placed in the
non-header latch block makes `canVectorizeWithIfConvert` return false. -/
theorem C6_witness_latch_trap :
    (canVectorizeWithIfConvert {} envNoPred loopLatchTrap LegState.initial).1 = false :=
  C6_nonheader_phi_trap_rejected {} envNoPred loopLatchTrap LegState.initial
    latchWithTrapPhi (by decide) (by decide) (by decide) (by decide)

/-- A single-block loop without a preheader. -/
def loopNoPreheader : Loop :=
  .mk { id := 0, headerId := 0, loopPreheader := none, numBackEdges := 1,
        exitingBlock := some 0, loopLatch := some 0, blocks := [],
        isAnnotatedParallel := false, canonicalInductionVariableUpdate := none,
        latchBranch := none } []

/-- Hints constructed with no metadata and all-default parameters. -/
def hintsDefault : LoopVectorizeHints :=
  LoopVectorizeHints.construct 0 false false 0 none

/-- Witness for C1 at the concrete loop without a preheader. -/
theorem C1_witness_no_preheader :
    (canVectorize {} envNoPred hintsDefault loopNoPreheader LegState.initial).1 = false :=
  C1_canVectorize_false_of_bad_cfg {} envNoPred hintsDefault loopNoPreheader
    LegState.initial (by decide)

/-- C7: when the metadata scan (and the interleave override) left the
already-vectorized hint at a value other than 1, the constructor derives
the in-memory flag as `Width.Value == 1 && Interleave.Value == 1`. -/
theorem C7_isVectorized_derived (vectorizationFactor : Nat)
    (interleaveOnlyWhenForced isInterleaveForced : Bool)
    (vectorizationInterleave : Nat) (loopID : Option (List MDEntry))
    (h : (LoopVectorizeHints.preDerive vectorizationFactor interleaveOnlyWhenForced
        isInterleaveForced vectorizationInterleave loopID).isVectorized.value ≠ 1) :
    (LoopVectorizeHints.construct vectorizationFactor interleaveOnlyWhenForced
        isInterleaveForced vectorizationInterleave loopID).isVectorized.value =
      (if (LoopVectorizeHints.construct vectorizationFactor interleaveOnlyWhenForced
            isInterleaveForced vectorizationInterleave loopID).width.value = 1 ∧
          (LoopVectorizeHints.construct vectorizationFactor interleaveOnlyWhenForced
            isInterleaveForced vectorizationInterleave loopID).interleave.value = 1
       then 1 else 0) := by
  unfold LoopVectorizeHints.construct
  rw [if_pos h]
  by_cases hw : (LoopVectorizeHints.preDerive vectorizationFactor interleaveOnlyWhenForced
      isInterleaveForced vectorizationInterleave loopID).width.value = 1 <;>
    by_cases hi : (LoopVectorizeHints.preDerive vectorizationFactor interleaveOnlyWhenForced
        isInterleaveForced vectorizationInterleave loopID).interleave.value = 1 <;>
      simp [hw, hi]

/-- The `llvm.loop.vectorize.width = 1` metadata entry. -/
def mdWidth1 : MDEntry := .node (some "llvm.loop.vectorize.width") [.constInt 1]

/-- The `llvm.loop.interleave.count = 1` metadata entry. -/
def mdInterleave1 : MDEntry := .node (some "llvm.loop.interleave.count") [.constInt 1]

/-- Witness for C7 (the spec's scenario): metadata width=1 and
interleave=1 with no isvectorized entry derive the flag to 1. -/
theorem C7_witness_width1_interleave1 :
    (LoopVectorizeHints.construct 0 false false 0
        (some [mdWidth1, mdInterleave1])).isVectorized.value = 1 := by
  rw [C7_isVectorized_derived 0 false false 0 (some [mdWidth1, mdInterleave1])
    (by decide)]
  decide

/-- Filtering twice with one predicate filters once. -/
theorem filter_self_idem {α : Type} (P : α → Bool) (l : List α) :
    List.filter P (List.filter P l) = List.filter P l := by
  induction l with
  | nil => rfl
  | cons x t ih => cases hx : P x <;> simp [List.filter_cons, hx, ih]

/-- C8: `setAlreadyVectorized` is idempotent — the second call returns
exactly the first call's state; after two calls the metadata holds
exactly one `isvectorized = 1` entry, no `vectorize.`/`interleave.`
entries survive, unrelated entries are preserved, and the in-memory flag
is 1 after each call. -/
theorem C8_setAlreadyVectorized_idempotent (h : LoopVectorizeHints)
    (loopID : Option (List MDEntry)) :
    (setAlreadyVectorized h loopID).1.isVectorized.value = 1 ∧
    setAlreadyVectorized (setAlreadyVectorized h loopID).1
        (setAlreadyVectorized h loopID).2 = setAlreadyVectorized h loopID ∧
    (((setAlreadyVectorized (setAlreadyVectorized h loopID).1
          (setAlreadyVectorized h loopID).2).2.getD []).countP
        fun e => e.name == some "llvm.loop.isvectorized") = 1 ∧
    (((setAlreadyVectorized h loopID).2.getD []).all fun e =>
        !(strStartsWith (e.name.getD "") (metadataTag ++ "vectorize.")) &&
          !(strStartsWith (e.name.getD "") (metadataTag ++ "interleave."))) = true ∧
    ∀ e ∈ loopID.getD [],
      makePostTransformationMetadataKeep
          [metadataTag ++ "vectorize.", metadataTag ++ "interleave."]
          [isVectorizedMD] e = true →
      e ∈ (setAlreadyVectorized h loopID).2.getD [] := by
  have hkeepIv : makePostTransformationMetadataKeep
      [metadataTag ++ "vectorize.", metadataTag ++ "interleave."]
      [isVectorizedMD] isVectorizedMD = false := by decide
  have hidem : setAlreadyVectorized (setAlreadyVectorized h loopID).1
      (setAlreadyVectorized h loopID).2 = setAlreadyVectorized h loopID := by
    unfold setAlreadyVectorized makePostTransformationMetadata
    simp only [Option.getD_some]
    rw [List.filter_append, filter_self_idem]
    simp [List.filter_cons, hkeepIv]
  refine ⟨rfl, hidem, ?_, ?_, ?_⟩
  · rw [hidem]
    unfold setAlreadyVectorized makePostTransformationMetadata
    simp only [Option.getD_some]
    rw [List.countP_append]
    have hz : (((loopID.getD []).filter (makePostTransformationMetadataKeep
        [metadataTag ++ "vectorize.", metadataTag ++ "interleave."]
        [isVectorizedMD])).countP
          fun e => e.name == some "llvm.loop.isvectorized") = 0 := by
      rw [List.countP_eq_zero]
      intro e he
      rw [List.mem_filter] at he
      intro hf
      rcases hname : e.name with _ | n
      · simp [hname] at hf
      · have h2 := he.2
        have hn : n = "llvm.loop.isvectorized" := by
          rw [hname] at hf
          simpa using hf
        subst hn
        rw [makePostTransformationMetadataKeep, hname] at h2
        simp [isVectorizedMD, MDEntry.name] at h2
    rw [hz]
    decide
  · unfold setAlreadyVectorized makePostTransformationMetadata
    simp only [Option.getD_some]
    rw [List.all_eq_true]
    intro e he
    rw [List.mem_append] at he
    rcases he with he | he
    · rw [List.mem_filter] at he
      have h2 := he.2
      rcases hname : e.name with _ | n
      · simp [hname]
        decide
      · rw [makePostTransformationMetadataKeep, hname] at h2
        simp only [List.any_cons, List.any_nil, Bool.or_false, Bool.not_or,
          Bool.and_eq_true, Bool.not_eq_true'] at h2
        simp [hname, h2.1.1, h2.1.2]
    · have heq : e = isVectorizedMD := by simpa using he
      subst heq
      decide
  · intro e he hkeep
    unfold setAlreadyVectorized makePostTransformationMetadata
    simp only [Option.getD_some]
    rw [List.mem_append]
    left
    rw [List.mem_filter]
    exact ⟨he, hkeep⟩

/-- `addUnsafeAlgebraInst` touches only the requirements field. -/
theorem addUnsafeAlgebraInst_fields (instId : Nat) (s : LegState) :
    (addUnsafeAlgebraInst instId s).reductions = s.reductions ∧
    (addUnsafeAlgebraInst instId s).inductions = s.inductions ∧
    (addUnsafeAlgebraInst instId s).firstOrderRecurrences = s.firstOrderRecurrences ∧
    (addUnsafeAlgebraInst instId s).allowedExit = s.allowedExit ∧
    (addUnsafeAlgebraInst instId s).pse = s.pse := by
  unfold addUnsafeAlgebraInst
  cases hu : s.unsafeAlgebraInst <;> simp

/-- The classification maps `addInductionPhi` writes: it appends to the
induction map and leaves the reduction and first-order-recurrence maps
alone. -/
theorem addInductionPhi_fields (phiId : Nat) (phiTy : Ty) (latchIncomingValue : Nat)
    (id : InductionDescriptor) (s : LegState) :
    (addInductionPhi phiId phiTy latchIncomingValue id s).inductions =
      s.inductions ++ [(phiId, id)] ∧
    (addInductionPhi phiId phiTy latchIncomingValue id s).reductions = s.reductions ∧
    (addInductionPhi phiId phiTy latchIncomingValue id s).firstOrderRecurrences =
      s.firstOrderRecurrences := by
  unfold addInductionPhi
  cases hcast : id.castInsts <;> cases hfp : phiTy.isFloatingPointTy <;>
    cases hw : s.widestIndTy <;> cases hp : s.primaryInduction <;>
      cases hpse : s.pse <;> repeat' split <;>
        first
        | contradiction
        | exact ⟨rfl, rfl, rfl⟩
        | simp [hpse]
        | (split_ifs <;> first | contradiction | exact ⟨rfl, rfl, rfl⟩)

/-- An instruction whose per-instruction check fails from every state
forces the instruction scan of its block to false. -/
theorem canVectorizeInstrsList_false_of_mem (env : Env) (headerId blockId : Nat)
    (i : Instruction)
    (hi : ∀ t, (canVectorizeInstrsStep env headerId blockId t i).1 = false) :
    ∀ instrs : List Instruction, i ∈ instrs → ∀ s,
      (canVectorizeInstrsList env headerId blockId s instrs).1 = false := by
  intro instrs
  induction instrs with
  | nil => intro hmem; cases hmem
  | cons j rest ih =>
    intro hmem s
    simp only [canVectorizeInstrsList]
    rcases List.mem_cons.mp hmem with heq | hmem'
    · subst heq
      rcases hstep : canVectorizeInstrsStep env headerId blockId s i with ⟨b, s'⟩
      have hfi := hi s
      rw [hstep] at hfi
      cases b
      · simp
      · simp at hfi
    · rcases hstep : canVectorizeInstrsStep env headerId blockId s j with ⟨b, s'⟩
      cases b
      · simp
      · simp only
        exact ih hmem' s'

/-- A block whose instruction scan fails from every state forces the
block scan to false. -/
theorem canVectorizeInstrsBlocks_false_of_mem (env : Env) (headerId : Nat)
    (bb : BasicBlock)
    (hb : ∀ t, (canVectorizeInstrsList env headerId bb.id t bb.instrs).1 = false) :
    ∀ blocks : List BasicBlock, bb ∈ blocks → ∀ s,
      (canVectorizeInstrsBlocks env headerId s blocks).1 = false := by
  intro blocks
  induction blocks with
  | nil => intro hmem; cases hmem
  | cons b rest ih =>
    intro hmem s
    simp only [canVectorizeInstrsBlocks]
    rcases List.mem_cons.mp hmem with heq | hmem'
    · subst heq
      rcases hl : canVectorizeInstrsList env headerId bb.id s bb.instrs with ⟨bv, s'⟩
      have hfb := hb s
      rw [hl] at hfb
      cases bv
      · simp
      · simp at hfb
    · rcases hl : canVectorizeInstrsList env headerId b.id s b.instrs with ⟨bv, s'⟩
      cases bv
      · simp
      · simp only
        exact ih hmem' s'

/-- `canVectorizeInstrs` fails when its block scan fails from every
state. -/
theorem canVectorizeInstrs_false_of_scan (env : Env) (d : LoopData)
    (h : ∀ t, (canVectorizeInstrsBlocks env d.headerId t d.blocks).1 = false) :
    ∀ s, (canVectorizeInstrs env d s).1 = false := by
  intro s
  unfold canVectorizeInstrs
  rcases hb : canVectorizeInstrsBlocks env d.headerId
      { s with hasFunNoNaNAttr := env.funNoNaN } d.blocks with ⟨bv, s1⟩
  have hfb := h { s with hasFunNoNaNAttr := env.funNoNaN }
  rw [hb] at hfb
  cases bv
  · simp [hb]
  · simp at hfb

/-- A header phi with other than two incoming values fails its
per-instruction check from every state. -/
theorem canVectorizeInstrsStep_false_of_bad_incoming (env : Env) (headerId : Nat)
    (i : Instruction) (p : PHINodeData) (hphi : i.phi = some p)
    (hlen : p.incoming.length ≠ 2) :
    ∀ t, (canVectorizeInstrsStep env headerId headerId t i).1 = false := by
  intro t
  unfold canVectorizeInstrsStep
  rw [hphi]
  cases hty : (!i.ty.isIntegerTy && !i.ty.isFloatingPointTy && !i.ty.isPointerTy)
  · simp [hty, hlen]
  · simp [hty]

/-- A header phi matched by none of the four classifiers fails its
per-instruction check from every state. -/
theorem canVectorizeInstrsStep_false_of_unclassifiable (env : Env) (headerId : Nat)
    (i : Instruction) (p : PHINodeData) (hphi : i.phi = some p)
    (hred : p.isReductionPHI = none) (hind : p.isInductionPHI = none)
    (hfor : p.isFirstOrderRecurrenceResult = false)
    (hass : p.isInductionPHIAssume = none) :
    ∀ t, (canVectorizeInstrsStep env headerId headerId t i).1 = false := by
  intro t
  unfold canVectorizeInstrsStep
  rw [hphi]
  cases hty : (!i.ty.isIntegerTy && !i.ty.isFloatingPointTy && !i.ty.isPointerTy)
  · cases hlen : (p.incoming.length != 2)
    · simp [hty, hlen, hred, hind, hfor, hass]
    · simp [hty, hlen]
  · simp [hty]

/-- C2: header phis must have exactly two incoming values — any other
count fails `canVectorizeInstrs` — and a two-incoming header phi of
allowed type is classified in the fixed order reduction → induction →
first-order recurrence → induction-after-AddRec-coercion, with the first
match winning and a phi matching none failing `canVectorizeInstrs`. -/
theorem C2_header_phi_classification_order :
    (∀ (env : Env) (d : LoopData) (s : LegState) (bb : BasicBlock)
        (i : Instruction) (p : PHINodeData), bb ∈ d.blocks → i ∈ bb.instrs →
        i.phi = some p → bb.id = d.headerId → p.incoming.length ≠ 2 →
        (canVectorizeInstrs env d s).1 = false) ∧
    (∀ (env : Env) (headerId : Nat) (s : LegState) (i : Instruction)
        (p : PHINodeData) (rd : RecurrenceDescriptor), i.phi = some p →
        (i.ty.isIntegerTy || i.ty.isFloatingPointTy || i.ty.isPointerTy) = true →
        p.incoming.length = 2 → p.isReductionPHI = some rd →
        (canVectorizeInstrsStep env headerId headerId s i).1 = true ∧
        (canVectorizeInstrsStep env headerId headerId s i).2.reductions =
          s.reductions ++ [(i.id, rd)] ∧
        (canVectorizeInstrsStep env headerId headerId s i).2.inductions =
          s.inductions ∧
        (canVectorizeInstrsStep env headerId headerId s i).2.firstOrderRecurrences =
          s.firstOrderRecurrences) ∧
    (∀ (env : Env) (headerId : Nat) (s : LegState) (i : Instruction)
        (p : PHINodeData) (id : InductionDescriptor), i.phi = some p →
        (i.ty.isIntegerTy || i.ty.isFloatingPointTy || i.ty.isPointerTy) = true →
        p.incoming.length = 2 → p.isReductionPHI = none →
        p.isInductionPHI = some id →
        (canVectorizeInstrsStep env headerId headerId s i).1 = true ∧
        (canVectorizeInstrsStep env headerId headerId s i).2.inductions =
          s.inductions ++ [(i.id, id)] ∧
        (canVectorizeInstrsStep env headerId headerId s i).2.reductions =
          s.reductions ∧
        (canVectorizeInstrsStep env headerId headerId s i).2.firstOrderRecurrences =
          s.firstOrderRecurrences) ∧
    (∀ (env : Env) (headerId : Nat) (s : LegState) (i : Instruction)
        (p : PHINodeData), i.phi = some p →
        (i.ty.isIntegerTy || i.ty.isFloatingPointTy || i.ty.isPointerTy) = true →
        p.incoming.length = 2 → p.isReductionPHI = none →
        p.isInductionPHI = none → p.isFirstOrderRecurrenceResult = true →
        (canVectorizeInstrsStep env headerId headerId s i).1 = true ∧
        (canVectorizeInstrsStep env headerId headerId s i).2.firstOrderRecurrences =
          s.firstOrderRecurrences.insert i.id ∧
        (canVectorizeInstrsStep env headerId headerId s i).2.reductions =
          s.reductions ∧
        (canVectorizeInstrsStep env headerId headerId s i).2.inductions =
          s.inductions) ∧
    (∀ (env : Env) (headerId : Nat) (s : LegState) (i : Instruction)
        (p : PHINodeData) (id : InductionDescriptor), i.phi = some p →
        (i.ty.isIntegerTy || i.ty.isFloatingPointTy || i.ty.isPointerTy) = true →
        p.incoming.length = 2 → p.isReductionPHI = none →
        p.isInductionPHI = none → p.isFirstOrderRecurrenceResult = false →
        p.isInductionPHIAssume = some id →
        (canVectorizeInstrsStep env headerId headerId s i).1 = true ∧
        (canVectorizeInstrsStep env headerId headerId s i).2.inductions =
          s.inductions ++ [(i.id, id)] ∧
        (canVectorizeInstrsStep env headerId headerId s i).2.reductions =
          s.reductions ∧
        (canVectorizeInstrsStep env headerId headerId s i).2.firstOrderRecurrences =
          s.firstOrderRecurrences) ∧
    (∀ (env : Env) (headerId : Nat) (s : LegState) (i : Instruction)
        (p : PHINodeData), i.phi = some p →
        (i.ty.isIntegerTy || i.ty.isFloatingPointTy || i.ty.isPointerTy) = true →
        p.incoming.length = 2 → p.isReductionPHI = none →
        p.isInductionPHI = none → p.isFirstOrderRecurrenceResult = false →
        p.isInductionPHIAssume = none →
        canVectorizeInstrsStep env headerId headerId s i = (false, s)) ∧
    (∀ (env : Env) (d : LoopData) (s : LegState) (bb : BasicBlock)
        (i : Instruction) (p : PHINodeData), bb ∈ d.blocks → i ∈ bb.instrs →
        i.phi = some p → bb.id = d.headerId → p.isReductionPHI = none →
        p.isInductionPHI = none → p.isFirstOrderRecurrenceResult = false →
        p.isInductionPHIAssume = none →
        (canVectorizeInstrs env d s).1 = false) := by
  have htyOf : ∀ i : Instruction,
      (i.ty.isIntegerTy || i.ty.isFloatingPointTy || i.ty.isPointerTy) = true →
      (!i.ty.isIntegerTy && !i.ty.isFloatingPointTy && !i.ty.isPointerTy) = false := by
    intro i h
    cases h1 : i.ty.isIntegerTy <;> cases h2 : i.ty.isFloatingPointTy <;>
      cases h3 : i.ty.isPointerTy <;> simp_all
  refine ⟨?_, ?_, ?_, ?_, ?_, ?_, ?_⟩
  · intro env d s bb i p hbb hi hphi hhdr hlen
    apply canVectorizeInstrs_false_of_scan
    apply canVectorizeInstrsBlocks_false_of_mem env d.headerId bb _ d.blocks hbb
    intro t
    rw [hhdr]
    exact canVectorizeInstrsList_false_of_mem env d.headerId d.headerId i
      (canVectorizeInstrsStep_false_of_bad_incoming env d.headerId i p hphi hlen)
      bb.instrs hi t
  · intro env headerId s i p rd hphi hty hlen hred
    unfold canVectorizeInstrsStep
    rw [hphi]
    simp only [htyOf i hty, Bool.false_eq_true, if_false, bne_self_eq_false,
      hlen, hred]
    have h1 := addUnsafeAlgebraInst_fields rd.unsafeAlgebraInst s
    cases hun : rd.hasUnsafeAlgebra <;>
      simp_all
  · intro env headerId s i p id hphi hty hlen hred hind
    unfold canVectorizeInstrsStep
    rw [hphi]
    simp only [htyOf i hty, Bool.false_eq_true, if_false, bne_self_eq_false,
      hlen, hred, hind]
    have h1 := addInductionPhi_fields i.id i.ty p.latchIncomingValue id s
    have h2 := addUnsafeAlgebraInst_fields id.unsafeAlgebraInst
      (addInductionPhi i.id i.ty p.latchIncomingValue id s)
    cases hun : (id.hasUnsafeAlgebra &&
        !(addInductionPhi i.id i.ty p.latchIncomingValue id s).hasFunNoNaNAttr) <;>
      simp_all
  · intro env headerId s i p hphi hty hlen hred hind hfor
    unfold canVectorizeInstrsStep
    rw [hphi]
    simp [htyOf i hty, hlen, hred, hind, hfor]
  · intro env headerId s i p id hphi hty hlen hred hind hfor hass
    unfold canVectorizeInstrsStep
    rw [hphi]
    simp only [htyOf i hty, Bool.false_eq_true, if_false, bne_self_eq_false,
      hlen, hred, hind, hfor, hass]
    have h1 := addInductionPhi_fields i.id i.ty p.latchIncomingValue id s
    simp_all
  · intro env headerId s i p hphi hty hlen hred hind hfor hass
    unfold canVectorizeInstrsStep
    rw [hphi]
    simp [htyOf i hty, hlen, hred, hind, hfor, hass]
  · intro env d s bb i p hbb hi hphi hhdr hred hind hfor hass
    apply canVectorizeInstrs_false_of_scan
    apply canVectorizeInstrsBlocks_false_of_mem env d.headerId bb _ d.blocks hbb
    intro t
    rw [hhdr]
    exact canVectorizeInstrsList_false_of_mem env d.headerId d.headerId i
      (canVectorizeInstrsStep_false_of_unclassifiable env d.headerId i p hphi
        hred hind hfor hass)
      bb.instrs hi t

/-- Facts true of every LLVM instruction, used as side conditions of
claim C5: a load instruction reads memory and neither writes memory nor
throws nor is a store; a store instruction writes memory and neither
throws nor is a load. -/
def wfMemInstr (i : Instruction) : Bool :=
  (!i.load.isSome ||
    (i.mayReadFromMemory && !i.mayWriteToMemory && !i.mayThrow && !i.store.isSome)) &&
  (!i.store.isSome || (i.mayWriteToMemory && !i.mayThrow && !i.load.isSome))

/-- An instruction that aborts its own iteration of
`blockCanBePredicated` forces the whole block check to false, wherever
it sits. -/
theorem blockCanBePredicated_false_of_mem (par : Bool) (safePtrs : List Nat)
    (i : Instruction)
    (hi : i.hasTrappingConstantOperand = true ∨
      (i.mayReadFromMemory = true ∧ i.load = none) ∨
      (i.mayReadFromMemory = false ∧ i.mayWriteToMemory = true ∧ i.store = none) ∨
      (i.mayReadFromMemory = false ∧ i.mayWriteToMemory = false ∧ i.mayThrow = true)) :
    ∀ instrs : List Instruction, i ∈ instrs → ∀ s,
      (blockCanBePredicated par safePtrs s instrs).1 = false := by
  intro instrs
  induction instrs with
  | nil => intro hmem; cases hmem
  | cons j rest ih =>
    intro hmem s
    simp only [blockCanBePredicated]
    rcases List.mem_cons.mp hmem with heq | hmem'
    · subst heq
      rcases hi with h | ⟨h1, h2⟩ | ⟨h1, h2, h3⟩ | ⟨h1, h2, h3⟩
      · simp [h]
      · simp [h1, h2]
      · cases htrap : i.hasTrappingConstantOperand
        · simp [htrap, h1, h2, h3, predWriteThrowStep]
        · simp [htrap]
      · cases htrap : i.hasTrappingConstantOperand
        · simp [htrap, h1, h2, h3, predWriteThrowStep]
        · simp [htrap]
    · cases htrap : j.hasTrappingConstantOperand
      · cases hread : j.mayReadFromMemory
        · rcases hw : predWriteThrowStep s j with _ | s'
          · simp [htrap, hread, hw]
          · simp only [htrap, hread, hw, Bool.false_eq_true, if_false]
            exact ih hmem' s'
        · rcases hload : j.load with _ | p
          · simp [htrap, hread, hload]
          · cases hcont : safePtrs.contains p
            · have hpnot : ¬(p ∈ safePtrs) := by simpa using hcont
              simp only [htrap, hread, hload, hcont, Bool.false_eq_true, if_false,
                Bool.not_false, if_true]
              first
              | exact ih hmem' _
              | (simp only [hpnot, if_false, reduceIte]; exact ih hmem' _)
              | (simp [hpnot]; exact ih hmem' _)
            · have hpmem : p ∈ safePtrs := by simpa using hcont
              rcases hw : predWriteThrowStep s j with _ | s'
              · simp [htrap, hread, hload, hpmem, hw]
              · simp only [htrap, hread, hload, hcont, hw, Bool.false_eq_true,
                  Bool.not_true, if_false]
                first
                | exact ih hmem' s'
                | (simp [hpmem, hw]; exact ih hmem' s')
      · simp [htrap]

/-- The facts `wfMemInstr` gives about a load. -/
theorem wfMemInstr_load {i : Instruction} (h : wfMemInstr i = true) {p : Nat}
    (hl : i.load = some p) :
    i.mayReadFromMemory = true ∧ i.mayWriteToMemory = false ∧
      i.mayThrow = false ∧ i.store = none := by
  unfold wfMemInstr at h
  rw [hl] at h
  simp only [Option.isSome_some, Bool.not_true, Bool.false_or, Bool.and_eq_true,
    Bool.or_eq_true, Bool.not_eq_true'] at h
  refine ⟨h.1.1.1.1, h.1.1.1.2, h.1.1.2, ?_⟩
  cases hs : i.store
  · rfl
  · rw [hs] at h
    simp at h

/-- The facts `wfMemInstr` gives about a store. -/
theorem wfMemInstr_store {i : Instruction} (h : wfMemInstr i = true)
    (hs : i.store.isSome = true) :
    i.mayWriteToMemory = true ∧ i.mayThrow = false ∧ i.load = none := by
  unfold wfMemInstr at h
  rw [hs] at h
  simp only [Bool.not_true, Bool.false_or, Bool.and_eq_true, Bool.or_eq_true,
    Bool.not_eq_true'] at h
  refine ⟨h.2.1.1, h.2.1.2, ?_⟩
  cases hl : i.load
  · rfl
  · rw [hl] at h
    simp at h

/-- The `MaskedOp` contents after a successful `blockCanBePredicated`:
exactly the prior contents, the ids of loads from pointers outside the
safe set (unless the loop is annotated parallel), and the ids of all
stores. -/
theorem blockCanBePredicated_maskedOp (par : Bool) (safePtrs : List Nat) :
    ∀ (instrs : List Instruction) (s : LegState),
      (∀ i ∈ instrs, wfMemInstr i = true) →
      (blockCanBePredicated par safePtrs s instrs).1 = true →
      ∀ x, x ∈ (blockCanBePredicated par safePtrs s instrs).2.maskedOp ↔
        (x ∈ s.maskedOp ∨ ∃ i ∈ instrs, x = i.id ∧
          ((∃ pp, i.load = some pp ∧ safePtrs.contains pp = false ∧ par = false) ∨
            i.store.isSome = true)) := by
  intro instrs
  induction instrs with
  | nil =>
    intro s _ _ x
    simp [blockCanBePredicated]
  | cons i rest ih =>
    intro s hwf htrue x
    have hwfi : wfMemInstr i = true := hwf i (List.mem_cons_self i rest)
    have hwfr : ∀ j ∈ rest, wfMemInstr j = true :=
      fun j hj => hwf j (List.mem_cons_of_mem i hj)
    cases htrap : i.hasTrappingConstantOperand
    · cases hread : i.mayReadFromMemory
      · -- no memory read: the write/throw tail runs
        cases hwrite : i.mayWriteToMemory
        · -- neither read nor write: the instruction must not throw
          cases hthrow : i.mayThrow
          · have hli : i.load = none := by
              rcases hl : i.load with _ | p
              · rfl
              · exact absurd (wfMemInstr_load hwfi hl).1 (by simp [hread])
            have hsi : i.store = none := by
              rcases hst : i.store with _ | st
              · rfl
              · exact absurd (wfMemInstr_store hwfi (by simp [hst])).1
                  (by simp [hwrite])
            simp only [blockCanBePredicated, predWriteThrowStep, htrap, hread,
              hwrite, hthrow, Bool.false_eq_true, if_false, reduceIte] at htrue ⊢
            rw [ih s hwfr htrue]
            simp only [List.mem_cons, hli, hsi]
            constructor
            · rintro (hx | hx)
              · exact Or.inl hx
              · exact Or.inr (by
                  obtain ⟨j, hj, hrest⟩ := hx
                  exact ⟨j, Or.inr hj, hrest⟩)
            · rintro (hx | ⟨j, hj | hj, hrest⟩)
              · exact Or.inl hx
              · subst hj
                simp [hli, hsi] at hrest
              · exact Or.inr ⟨j, hj, hrest⟩
          · -- throwing: the block check cannot have returned true
            exfalso
            simp only [blockCanBePredicated, predWriteThrowStep, htrap, hread,
              hwrite, hthrow, Bool.false_eq_true, if_false, reduceIte] at htrue
        · -- a write: must be a store, recorded in MaskedOp
          rcases hst : i.store with _ | st
          · exfalso
            simp only [blockCanBePredicated, predWriteThrowStep, htrap, hread,
              hwrite, hst, Bool.false_eq_true, if_false, reduceIte] at htrue
          · have hli : i.load = none :=
              (wfMemInstr_store hwfi (by simp [hst])).2.2
            simp only [blockCanBePredicated, predWriteThrowStep, htrap, hread,
              hwrite, hst, Bool.false_eq_true, if_false, reduceIte] at htrue ⊢
            rw [ih _ hwfr htrue]
            simp only [List.mem_cons, List.mem_insert_iff, hli, hst]
            constructor
            · rintro ((hx | hx) | hx)
              · exact Or.inr ⟨i, Or.inl rfl, hx, Or.inr (by simp [hst])⟩
              · exact Or.inl hx
              · exact Or.inr (by
                  obtain ⟨j, hj, hrest⟩ := hx
                  exact ⟨j, Or.inr hj, hrest⟩)
            · rintro (hx | ⟨j, hj | hj, hrest⟩)
              · exact Or.inl (Or.inr hx)
              · subst hj
                exact Or.inl (Or.inl hrest.1)
              · exact Or.inr ⟨j, hj, hrest⟩
      · -- a memory read: must be a load
        rcases hl : i.load with _ | p
        · exfalso
          simp only [blockCanBePredicated, htrap, hread, hl,
            Bool.false_eq_true, if_false, reduceIte] at htrue
        · obtain ⟨_, hnw, hnt, hns⟩ := wfMemInstr_load hwfi hl
          cases hcont : safePtrs.contains p
          · -- pointer outside the safe set: masked unless annotated parallel
            simp only [blockCanBePredicated, htrap, hread, hl, hcont,
              Bool.false_eq_true, if_false, Bool.not_false, if_true, reduceIte] at htrue ⊢
            rw [ih _ hwfr htrue]
            cases hpar : par
            · simp only [hpar, Bool.not_false, if_true, List.mem_insert_iff,
                List.mem_cons, hl, hns]
              constructor
              · rintro ((hx | hx) | hx)
                · exact Or.inr ⟨i, Or.inl rfl, hx, Or.inl ⟨p, by simp [hl], by simpa using hcont, by simp [hpar]⟩⟩
                · exact Or.inl hx
                · exact Or.inr (by
                    obtain ⟨j, hj, hrest⟩ := hx
                    exact ⟨j, Or.inr hj, hrest⟩)
              · rintro (hx | ⟨j, hj | hj, hrest⟩)
                · exact Or.inl (Or.inr hx)
                · subst hj
                  exact Or.inl (Or.inl hrest.1)
                · exact Or.inr ⟨j, hj, hrest⟩
            · simp only [hpar, Bool.not_true, Bool.false_eq_true, if_false,
                List.mem_cons, hl, hns]
              constructor
              · rintro (hx | hx)
                · exact Or.inl hx
                · exact Or.inr (by
                    obtain ⟨j, hj, hrest⟩ := hx
                    exact ⟨j, Or.inr hj, hrest⟩)
              · rintro (hx | ⟨j, hj | hj, hrest⟩)
                · exact Or.inl hx
                · subst hj
                  rcases hrest.2 with ⟨pp, hpp, _, hfalse⟩ | hsome
                  · cases hfalse
                  · rw [hns] at hsome
                    simp at hsome
                · exact Or.inr ⟨j, hj, hrest⟩
          · -- pointer in the safe set: fall through, nothing recorded
            simp only [blockCanBePredicated, predWriteThrowStep, htrap, hread,
              hl, hcont, hnw, hnt, Bool.false_eq_true, if_false,
              Bool.not_true, reduceIte] at htrue ⊢
            rw [ih _ hwfr htrue]
            simp only [List.mem_cons, hl, hns]
            constructor
            · rintro (hx | hx)
              · exact Or.inl hx
              · exact Or.inr (by
                  obtain ⟨j, hj, hrest⟩ := hx
                  exact ⟨j, Or.inr hj, hrest⟩)
            · rintro (hx | ⟨j, hj | hj, hrest⟩)
              · exact Or.inl hx
              · subst hj
                rcases hrest.2 with ⟨pp, hpp, hcf, _⟩ | hsome
                · rw [hl] at hpp
                  cases hpp
                  rw [hcont] at hcf
                  cases hcf
                · rw [hns] at hsome
                  simp at hsome
              · exact Or.inr ⟨j, hj, hrest⟩
    · exfalso
      simp only [blockCanBePredicated, htrap, if_true] at htrue
      simp at htrue

/-- C5: under the well-formedness facts of LLVM memory instructions
(`wfMemInstr`), `blockCanBePredicated` returns false when some
instruction has a trapping constant operand, or reads memory without
being a load, or writes memory without being a store, or may throw; and
when it returns true, `MaskedOp` has gained exactly the loads from
pointers outside the safe set (unless the loop is annotated parallel,
and never loads from safe pointers) and all stores. -/
theorem C5_blockCanBePredicated_spec (par : Bool) (safePtrs : List Nat)
    (s : LegState) (instrs : List Instruction)
    (hwf : ∀ i ∈ instrs, wfMemInstr i = true) :
    ((∃ i ∈ instrs, i.hasTrappingConstantOperand = true) →
      (blockCanBePredicated par safePtrs s instrs).1 = false) ∧
    ((∃ i ∈ instrs, i.mayReadFromMemory = true ∧ i.load = none) →
      (blockCanBePredicated par safePtrs s instrs).1 = false) ∧
    ((∃ i ∈ instrs, i.mayWriteToMemory = true ∧ i.store = none) →
      (blockCanBePredicated par safePtrs s instrs).1 = false) ∧
    ((∃ i ∈ instrs, i.mayThrow = true) →
      (blockCanBePredicated par safePtrs s instrs).1 = false) ∧
    ((blockCanBePredicated par safePtrs s instrs).1 = true →
      ∀ x, x ∈ (blockCanBePredicated par safePtrs s instrs).2.maskedOp ↔
        (x ∈ s.maskedOp ∨ ∃ i ∈ instrs, x = i.id ∧
          ((∃ pp, i.load = some pp ∧ safePtrs.contains pp = false ∧ par = false) ∨
            i.store.isSome = true))) := by
  refine ⟨?_, ?_, ?_, ?_,
    fun h x => blockCanBePredicated_maskedOp par safePtrs instrs s hwf h x⟩
  · rintro ⟨i, hmem, htrap⟩
    exact blockCanBePredicated_false_of_mem par safePtrs i (Or.inl htrap) instrs hmem s
  · rintro ⟨i, hmem, hread, hload⟩
    exact blockCanBePredicated_false_of_mem par safePtrs i
      (Or.inr (Or.inl ⟨hread, hload⟩)) instrs hmem s
  · rintro ⟨i, hmem, hwrite, hstore⟩
    have hwfi := hwf i hmem
    rcases hl : i.load with _ | p
    · cases hr : i.mayReadFromMemory
      · exact blockCanBePredicated_false_of_mem par safePtrs i
          (Or.inr (Or.inr (Or.inl ⟨hr, hwrite, hstore⟩))) instrs hmem s
      · exact blockCanBePredicated_false_of_mem par safePtrs i
          (Or.inr (Or.inl ⟨hr, hl⟩)) instrs hmem s
    · exact absurd (wfMemInstr_load hwfi hl).2.1 (by simp [hwrite])
  · rintro ⟨i, hmem, hthrow⟩
    have hwfi := hwf i hmem
    have hl : i.load = none := by
      rcases hl : i.load with _ | p
      · rfl
      · exact absurd (wfMemInstr_load hwfi hl).2.2.1 (by simp [hthrow])
    have hs : i.store = none := by
      rcases hs : i.store with _ | st
      · rfl
      · exact absurd (wfMemInstr_store hwfi (by simp [hs])).2.1 (by simp [hthrow])
    cases hr : i.mayReadFromMemory
    · cases hw : i.mayWriteToMemory
      · exact blockCanBePredicated_false_of_mem par safePtrs i
          (Or.inr (Or.inr (Or.inr ⟨hr, hw, hthrow⟩))) instrs hmem s
      · exact blockCanBePredicated_false_of_mem par safePtrs i
          (Or.inr (Or.inr (Or.inl ⟨hr, hw, hs⟩))) instrs hmem s
    · exact blockCanBePredicated_false_of_mem par safePtrs i
        (Or.inr (Or.inl ⟨hr, hl⟩)) instrs hmem s

/-- A load from pointer 7, outside any safe set. -/
def maskLoadInstr : Instruction :=
  { id := 20, ty := .int 32, phi := none, call := none,
    typeIsValidElement := true, isExtractElementInst := false, load := some 7,
    store := none, isBinaryOp := false, isFast := false,
    hasTrappingConstantOperand := false, mayReadFromMemory := true,
    mayWriteToMemory := false, mayThrow := false }

/-- A store through pointer 8. -/
def maskStoreInstr : Instruction :=
  { id := 21, ty := .void, phi := none, call := none,
    typeIsValidElement := false, isExtractElementInst := false, load := none,
    store := some { pointerOperand := 8, valueTypeIsValidElement := true },
    isBinaryOp := false, isFast := false,
    hasTrappingConstantOperand := false, mayReadFromMemory := false,
    mayWriteToMemory := true, mayThrow := false }

/-- Witness for C5: a block of one unsafe load and one store passes
`blockCanBePredicated` and both end up in `MaskedOp`. -/
theorem C5_witness_load_store_masked :
    20 ∈ (blockCanBePredicated false [] LegState.initial
        [maskLoadInstr, maskStoreInstr]).2.maskedOp ∧
    21 ∈ (blockCanBePredicated false [] LegState.initial
        [maskLoadInstr, maskStoreInstr]).2.maskedOp := by
  have h := C5_blockCanBePredicated_spec false [] LegState.initial
    [maskLoadInstr, maskStoreInstr] (by decide)
  refine ⟨?_, ?_⟩
  · exact (h.2.2.2.2 (by decide) 20).mpr
      (Or.inr ⟨maskLoadInstr, by decide, by decide,
        Or.inl ⟨7, rfl, by decide, rfl⟩⟩)
  · exact (h.2.2.2.2 (by decide) 21).mpr
      (Or.inr ⟨maskStoreInstr, by decide, by decide, Or.inr (by decide)⟩)

/-! ### AllowedExit monotonicity (claim C9) -/

/-- A continuing `predWriteThrowStep` leaves `AllowedExit` unchanged. -/
theorem predWriteThrowStep_allowedExit {s s' : LegState} {i : Instruction}
    (h : predWriteThrowStep s i = some s') : s'.allowedExit = s.allowedExit := by
  unfold predWriteThrowStep at h
  split at h
  · split at h
    · exact absurd h (by simp)
    · cases h
      rfl
  · split at h
    · exact absurd h (by simp)
    · cases h
      rfl

/-- `blockCanBePredicated` never changes `AllowedExit`. -/
theorem blockCanBePredicated_allowedExit (par : Bool) (safePtrs : List Nat) :
    ∀ (instrs : List Instruction) (s : LegState),
      (blockCanBePredicated par safePtrs s instrs).2.allowedExit = s.allowedExit := by
  intro instrs
  induction instrs with
  | nil => intro s; rfl
  | cons i rest ih =>
    intro s
    cases htrap : i.hasTrappingConstantOperand
    · cases hread : i.mayReadFromMemory
      · rcases hw : predWriteThrowStep s i with _ | s'
        · simp [blockCanBePredicated, htrap, hread, hw]
        · simp only [blockCanBePredicated, htrap, hread, hw, Bool.false_eq_true,
            if_false, reduceIte]
          rw [ih s', predWriteThrowStep_allowedExit hw]
      · rcases hl : i.load with _ | p
        · simp [blockCanBePredicated, htrap, hread, hl]
        · cases hcont : safePtrs.contains p
          · simp only [blockCanBePredicated, htrap, hread, hl, hcont,
              Bool.false_eq_true, if_false, Bool.not_false, if_true, reduceIte]
            cases par <;> simp only [Bool.not_false, Bool.not_true,
                Bool.false_eq_true, if_false, if_true, reduceIte] <;> rw [ih]
          · have hpmem : p ∈ safePtrs := by simpa using hcont
            rcases hw : predWriteThrowStep s i with _ | s'
            · simp [blockCanBePredicated, htrap, hread, hl, hpmem, hw]
            · simp only [blockCanBePredicated, htrap, hread, hl, hcont, hw,
                Bool.false_eq_true, Bool.not_true, if_false, reduceIte]
              rw [ih s', predWriteThrowStep_allowedExit hw]
    · simp [blockCanBePredicated, htrap]

theorem subset_insertNat (a : Nat) (l : List Nat) : l ⊆ l.insert a := by
  intro x hx
  unfold List.insert
  split
  · exact hx
  · exact List.mem_cons_of_mem _ hx

theorem addUnsafeAlgebraInst_allowedExit_mono (instId : Nat) (s : LegState) :
    s.allowedExit ⊆ (addUnsafeAlgebraInst instId s).allowedExit := by
  rw [(addUnsafeAlgebraInst_fields instId s).2.2.2.1]
  exact List.Subset.refl _

theorem addInductionPhi_allowedExit_mono (phiId : Nat) (phiTy : Ty)
    (latchIncomingValue : Nat) (id : InductionDescriptor) (s : LegState) :
    s.allowedExit ⊆ (addInductionPhi phiId phiTy latchIncomingValue id s).allowedExit := by
  rw [addInductionPhi_allowedExit_eq]
  split
  · exact List.Subset.trans (subset_insertNat _ _) (subset_insertNat _ _)
  · exact List.Subset.refl _

theorem canVectorizeInstrsOutsideUserCheck_allowedExit_mono (env : Env)
    (s : LegState) (i : Instruction) :
    s.allowedExit ⊆ (canVectorizeInstrsOutsideUserCheck env s i).2.allowedExit := by
  unfold canVectorizeInstrsOutsideUserCheck
  (repeat' split) <;> first | exact List.Subset.refl _ | exact subset_insertNat _ _

theorem canVectorizeInstrsStep_allowedExit_mono (env : Env) (headerId blockId : Nat)
    (s : LegState) (i : Instruction) :
    s.allowedExit ⊆ (canVectorizeInstrsStep env headerId blockId s i).2.allowedExit := by
  unfold canVectorizeInstrsStep
  (repeat' (first | split | simp only [])) <;>
    first
    | exact List.Subset.refl _
    | exact subset_insertNat _ _
    | exact List.Subset.trans (addUnsafeAlgebraInst_allowedExit_mono _ _)
        (subset_insertNat _ _)
    | exact addInductionPhi_allowedExit_mono _ _ _ _ _
    | exact List.Subset.trans (addInductionPhi_allowedExit_mono _ _ _ _ _)
        (addUnsafeAlgebraInst_allowedExit_mono _ _)
    | exact canVectorizeInstrsOutsideUserCheck_allowedExit_mono _ _ _
    | exact canVectorizeInstrsOutsideUserCheck_allowedExit_mono env
        { s with potentiallyUnsafe := true } i

theorem canVectorizeInstrsList_allowedExit_mono (env : Env) (headerId blockId : Nat) :
    ∀ (instrs : List Instruction) (s : LegState),
      s.allowedExit ⊆ (canVectorizeInstrsList env headerId blockId s instrs).2.allowedExit := by
  intro instrs
  induction instrs with
  | nil => intro s; exact List.Subset.refl _
  | cons i rest ih =>
    intro s
    simp only [canVectorizeInstrsList]
    have hmono := canVectorizeInstrsStep_allowedExit_mono env headerId blockId s i
    rcases hstep : canVectorizeInstrsStep env headerId blockId s i with ⟨b, s'⟩
    rw [hstep] at hmono
    cases b
    · exact hmono
    · exact List.Subset.trans hmono (ih s')

theorem canVectorizeInstrsBlocks_allowedExit_mono (env : Env) (headerId : Nat) :
    ∀ (blocks : List BasicBlock) (s : LegState),
      s.allowedExit ⊆ (canVectorizeInstrsBlocks env headerId s blocks).2.allowedExit := by
  intro blocks
  induction blocks with
  | nil => intro s; exact List.Subset.refl _
  | cons bb rest ih =>
    intro s
    simp only [canVectorizeInstrsBlocks]
    have hmono := canVectorizeInstrsList_allowedExit_mono env headerId bb.id bb.instrs s
    rcases hl : canVectorizeInstrsList env headerId bb.id s bb.instrs with ⟨b, s'⟩
    rw [hl] at hmono
    cases b
    · exact hmono
    · exact List.Subset.trans hmono (ih s')

theorem canVectorizeInstrs_allowedExit_mono (env : Env) (d : LoopData) (s : LegState) :
    s.allowedExit ⊆ (canVectorizeInstrs env d s).2.allowedExit := by
  have hmono := canVectorizeInstrsBlocks_allowedExit_mono env d.headerId d.blocks
    { s with hasFunNoNaNAttr := env.funNoNaN }
  unfold canVectorizeInstrs
  simp only []
  rcases hb : canVectorizeInstrsBlocks env d.headerId
      { s with hasFunNoNaNAttr := env.funNoNaN } d.blocks with ⟨bv, s1⟩
  rw [hb] at hmono
  cases bv
  · exact hmono
  · (repeat' split) <;> first | exact hmono | simp_all

theorem setupOuterLoopInductionsPhis_allowedExit_mono :
    ∀ (phis : List (Instruction × PHINodeData)) (s : LegState),
      s.allowedExit ⊆ (setupOuterLoopInductionsPhis s phis).2.allowedExit := by
  intro phis
  induction phis with
  | nil => intro s; exact List.Subset.refl _
  | cons ip rest ih =>
    intro s
    simp only [setupOuterLoopInductionsPhis]
    (repeat' split) <;>
      first
      | exact List.Subset.refl _
      | exact List.Subset.trans (addInductionPhi_allowedExit_mono _ _ _ _ _) (ih _)

theorem setupOuterLoopInductions_allowedExit_mono (d : LoopData) (s : LegState) :
    s.allowedExit ⊆ (setupOuterLoopInductions d s).2.allowedExit :=
  setupOuterLoopInductionsPhis_allowedExit_mono _ s

theorem canVectorizeOuterLoop_allowedExit_mono (cfg : Config) (env : Env)
    (lp : Loop) (s : LegState) :
    s.allowedExit ⊆ (canVectorizeOuterLoop cfg env lp s).2.allowedExit := by
  have hmono := setupOuterLoopInductions_allowedExit_mono lp.data s
  unfold canVectorizeOuterLoop
  simp only []
  rcases hs : setupOuterLoopInductions lp.data s with ⟨b, s'⟩
  rw [hs] at hmono
  (repeat' split) <;> first | exact List.Subset.refl _ | exact hmono | simp_all

theorem canVectorizeWithIfConvertBlocks_allowedExit (env : Env) (par : Bool)
    (headerId : Nat) (safePtrs : List Nat) :
    ∀ (blocks : List BasicBlock) (s : LegState),
      (canVectorizeWithIfConvertBlocks env par headerId safePtrs s blocks).2.allowedExit =
        s.allowedExit := by
  intro blocks
  induction blocks with
  | nil => intro s; rfl
  | cons bb rest ih =>
    intro s
    simp only [canVectorizeWithIfConvertBlocks]
    have heq := blockCanBePredicated_allowedExit par safePtrs bb.instrs s
    rcases hb : blockCanBePredicated par safePtrs s bb.instrs with ⟨bv, s'⟩
    rw [hb] at heq
    (repeat' split) <;>
      first
      | rfl
      | exact heq
      | exact ih s
      | (rename_i s2 heq2
         injection heq2 with h1 h2
         subst h2
         first | exact heq | (rw [ih]; exact heq))

theorem canVectorizeWithIfConvert_allowedExit (cfg : Config) (env : Env)
    (d : LoopData) (s : LegState) :
    (canVectorizeWithIfConvert cfg env d s).2.allowedExit = s.allowedExit := by
  unfold canVectorizeWithIfConvert
  split
  · rfl
  · exact canVectorizeWithIfConvertBlocks_allowedExit env d.isAnnotatedParallel
      d.headerId _ d.blocks s

theorem canVectorizeMemory_allowedExit (env : Env) (s : LegState) :
    (canVectorizeMemory env s).2.allowedExit = s.allowedExit := by
  unfold canVectorizeMemory
  (repeat' split) <;> rfl

theorem canFoldTailByMaskingBlocks_allowedExit (par : Bool) :
    ∀ (blocks : List BasicBlock) (s : LegState),
      (canFoldTailByMaskingBlocks par s blocks).2.allowedExit = s.allowedExit := by
  intro blocks
  induction blocks with
  | nil => intro s; rfl
  | cons bb rest ih =>
    intro s
    simp only [canFoldTailByMaskingBlocks]
    have heq := blockCanBePredicated_allowedExit par [] bb.instrs s
    rcases hb : blockCanBePredicated par [] s bb.instrs with ⟨bv, s'⟩
    rw [hb] at heq
    cases bv
    · exact heq
    · rw [ih s']
      exact heq

theorem canFoldTailByMasking_allowedExit (env : Env) (d : LoopData) (s : LegState) :
    (canFoldTailByMasking env d s).2.allowedExit = s.allowedExit := by
  unfold canFoldTailByMasking
  (repeat' split) <;>
    first
    | rfl
    | exact canFoldTailByMaskingBlocks_allowedExit d.isAnnotatedParallel d.blocks s

theorem seqCheck_allowedExit_mono (dx : Bool) (check : LegState → Bool × LegState)
    (result : Bool) (s : LegState) (k : Bool → LegState → Bool × LegState)
    (hc : ∀ t, t.allowedExit ⊆ (check t).2.allowedExit)
    (hk : ∀ r t, t.allowedExit ⊆ (k r t).2.allowedExit) :
    s.allowedExit ⊆ (seqCheck dx check result s k).2.allowedExit := by
  unfold seqCheck
  have h1 := hc s
  rcases hcs : check s with ⟨b, s'⟩
  rw [hcs] at h1
  cases b
  · cases dx
    · exact h1
    · exact List.Subset.trans h1 (hk false s')
  · exact List.Subset.trans h1 (hk result s')

theorem canVectorize_allowedExit_mono (cfg : Config) (env : Env)
    (hints : LoopVectorizeHints) (lp : Loop) (s : LegState) :
    s.allowedExit ⊆ (canVectorize cfg env hints lp s).2.allowedExit := by
  unfold canVectorize
  apply seqCheck_allowedExit_mono
  · intro t
    exact List.Subset.refl _
  · intro r t
    cases hsub : lp.subLoops.isEmpty
    · simp only [hsub, Bool.not_false, if_true, reduceIte]
      have hmono := canVectorizeOuterLoop_allowedExit_mono cfg env lp t
      rcases ho : canVectorizeOuterLoop cfg env lp t with ⟨b, s'⟩
      rw [ho] at hmono
      cases b <;> exact hmono
    · simp only [hsub, Bool.not_true, Bool.false_eq_true, if_false, reduceIte]
      apply seqCheck_allowedExit_mono
      · intro u
        split
        · have heq := canVectorizeWithIfConvert_allowedExit cfg env lp.data u
          rw [heq]
          exact List.Subset.refl _
        · exact List.Subset.refl _
      · intro r2 u
        apply seqCheck_allowedExit_mono
        · intro v
          exact canVectorizeInstrs_allowedExit_mono env lp.data v
        · intro r3 v
          apply seqCheck_allowedExit_mono
          · intro w
            rw [canVectorizeMemory_allowedExit env w]
            exact List.Subset.refl _
          · intro r4 w
            apply seqCheck_allowedExit_mono
            · intro u2
              exact List.Subset.refl _
            · intro r5 u2
              exact List.Subset.refl _

/-- C9: the `AllowedExit` set grows monotonically — no operation of the
legality analysis removes an element from it: `addInductionPhi` and the
instruction/phi classification only insert; the outer-loop path,
if-conversion feasibility, memory legality, tail-folding feasibility and
the whole `canVectorize` never shrink it (the predication passes leave it
exactly unchanged). -/
theorem C9_allowedExit_monotone :
    (∀ (phiId : Nat) (phiTy : Ty) (latchIncomingValue : Nat)
        (id : InductionDescriptor) (s : LegState),
      s.allowedExit ⊆ (addInductionPhi phiId phiTy latchIncomingValue id s).allowedExit) ∧
    (∀ (env : Env) (d : LoopData) (s : LegState),
      s.allowedExit ⊆ (canVectorizeInstrs env d s).2.allowedExit) ∧
    (∀ (d : LoopData) (s : LegState),
      s.allowedExit ⊆ (setupOuterLoopInductions d s).2.allowedExit) ∧
    (∀ (cfg : Config) (env : Env) (lp : Loop) (s : LegState),
      s.allowedExit ⊆ (canVectorizeOuterLoop cfg env lp s).2.allowedExit) ∧
    (∀ (par : Bool) (safePtrs : List Nat) (instrs : List Instruction) (s : LegState),
      (blockCanBePredicated par safePtrs s instrs).2.allowedExit = s.allowedExit) ∧
    (∀ (cfg : Config) (env : Env) (d : LoopData) (s : LegState),
      (canVectorizeWithIfConvert cfg env d s).2.allowedExit = s.allowedExit) ∧
    (∀ (env : Env) (s : LegState),
      (canVectorizeMemory env s).2.allowedExit = s.allowedExit) ∧
    (∀ (env : Env) (d : LoopData) (s : LegState),
      (canFoldTailByMasking env d s).2.allowedExit = s.allowedExit) ∧
    (∀ (cfg : Config) (env : Env) (hints : LoopVectorizeHints) (lp : Loop)
        (s : LegState),
      s.allowedExit ⊆ (canVectorize cfg env hints lp s).2.allowedExit) :=
  ⟨addInductionPhi_allowedExit_mono,
   canVectorizeInstrs_allowedExit_mono,
   setupOuterLoopInductions_allowedExit_mono,
   canVectorizeOuterLoop_allowedExit_mono,
   fun par safePtrs instrs s => blockCanBePredicated_allowedExit par safePtrs instrs s,
   canVectorizeWithIfConvert_allowedExit,
   canVectorizeMemory_allowedExit,
   canFoldTailByMasking_allowedExit,
   canVectorize_allowedExit_mono⟩

end LVL
